import Mathlib

/-!
GoSlice: layer partitioning, wall insets and triangle bucketing.

A shallow embedding of `go_slicer/clip/clipper.go` and `slicer/slicer.go`.

Conventions of the embedding:

* Values of `util.Micrometer`, `clipper.CInt` and Go `int` are integers (`Int`).  The
  declaration of `util.Micrometer` is outside the embedded files; where the width of the
  machine integers decides a statement (the distance handed to the offset engine, the
  layer count and the layer indices) the arithmetic is given in 64-bit two's complement
  (`wrap64`) and the `float64` conversion as rounding to 53 significant bits (`roundF64`).
  The bucketing of segments (`NewSlicer`) computes on the integers themselves.
* Go slices are lists.  The one slice whose nil-ness the code tests
  (`polysForNextRound`) is an `Option (List _)`, `none` being the nil slice.
* Functions whose code is outside the embedded files (the clipper engine, `Sub`,
  `ShorterThan`, `Simplify`, `SliceFace`) are parameters of the definitions that call
  them; the types `segment`, `layer`, `OptimizedModel` and the constructor `NewLayer`
  are modelled from the specification.
* The unbounded `for` loop of `GenerateLayerParts` takes fuel; running out of fuel is
  `none`.  Go panics (index out of range, division by zero) are `none` as well.
-/

set_option linter.dupNamespace false

namespace GoSlice

/-! ## Data model -/

/-- Fixed-point length, `util.Micrometer`. -/
abbrev Micrometer := Int

/-- Two-dimensional point `util.MicroPoint`. -/
structure MicroPoint where
  X : Micrometer
  Y : Micrometer
deriving DecidableEq, Repr

/-- Three-dimensional point `util.MicroVec3`. -/
structure MicroVec3 where
  X : Micrometer
  Y : Micrometer
  Z : Micrometer
deriving DecidableEq, Repr

namespace data

/-- Ordered point sequence `data.Path`. -/
abbrev Path := List MicroPoint

/-- Collection of paths `data.Paths`. -/
abbrev Paths := List Path

end data

namespace clipper

/-- Engine point `clipper.IntPoint`. -/
structure IntPoint where
  X : Int
  Y : Int
deriving DecidableEq, Repr

/-- Engine path `clipper.Path`. -/
abbrev Path := List IntPoint

/-- Engine path set `clipper.Paths`. -/
abbrev Paths := List Path

/-- Node of the contour forest `clipper.PolyNode`: a contour and its child nodes. -/
inductive PolyNode where
  | mk (contour : Path) (childs : List PolyNode)
deriving Repr

/-- Accessor `PolyNode.Contour()`. -/
def PolyNode.Contour : PolyNode → Path
  | .mk c _ => c

/-- Accessor `PolyNode.Childs()`. -/
def PolyNode.Childs : PolyNode → List PolyNode
  | .mk _ cs => cs

/-- Join style of the offset engine. -/
inductive JoinType where
  | JtSquare
  | JtRound
  | JtMiter
deriving DecidableEq, Repr

/-- End style of the offset engine. -/
inductive EndType where
  | EtClosedPolygon
  | EtClosedLine
  | EtOpenSquare
  | EtOpenRound
  | EtOpenButt
deriving DecidableEq, Repr

/-- Boolean operation of the clipping engine. -/
inductive ClipType where
  | CtIntersection
  | CtUnion
  | CtDifference
  | CtXor
deriving DecidableEq, Repr

/-- Fill rule of the clipping engine. -/
inductive PolyFillType where
  | PftEvenOdd
  | PftNonZero
  | PftPositive
  | PftNegative
deriving DecidableEq, Repr

/-- Everything a `ClipperOffset` object holds when `Execute` is called after `Clear`:
the path groups added with their join and end styles, the miter limit, and the distance.
The distance is the `float64` value `float64(a) - float64(b)` for integers `a`, `b` in the
source; every such value is an integer and is kept as this integer. -/
structure OffsetRequest where
  added : List (Paths × JoinType × EndType)
  MiterLimit : Int
  delta : Int
deriving DecidableEq, Repr

end clipper

/-! ### Machine arithmetic -/

/-- Two's-complement wrap of an integer to the 64-bit signed range, the result of a Go
`int64` (and 64-bit `int`) operation whose exact result is `x`. -/
def wrap64 (x : Int) : Int := (x + 2 ^ 63) % 2 ^ 64 - 2 ^ 63

/-- The number of low bits a natural number loses when it is stored with 53 significant
bits: 0 below `2^53`, one more for every further doubling (`fuel` bounds the search). -/
def f64Shift : Nat → Nat → Nat
  | 0, _ => 0
  | fuel + 1, n => if n < 2 ^ 53 then 0 else f64Shift fuel (n / 2) + 1

/-- The `float64` nearest to a natural number below `2^117`, ties to the even
significand: the number itself below `2^53`, otherwise the nearest multiple of `2^s` for
the shift `s` of its size. -/
def roundF64Nat (n : Nat) : Nat :=
  let s := f64Shift 64 n
  if s = 0 then n
  else
    let q := n / 2 ^ s
    let r := n % 2 ^ s
    if r > 2 ^ (s - 1) ∨ (r = 2 ^ (s - 1) ∧ q % 2 = 1) then (q + 1) * 2 ^ s else q * 2 ^ s

/-- The `float64` nearest to an integer, as an integer: the conversion `float64(x)` and
the rounding of an exact `float64` sum or difference. -/
def roundF64 (x : Int) : Int :=
  if x < 0 then -((roundF64Nat (-x).toNat : Nat) : Int) else ((roundF64Nat x.toNat : Nat) : Int)

/-- Signature of `Clipper.Execute2` applied to the closed subject paths that were added:
returns the root of the contour tree and the success flag. -/
abbrev Execute2Fn :=
  clipper.ClipType → clipper.PolyFillType → clipper.PolyFillType → clipper.Paths →
    clipper.PolyNode × Bool

/-- Signature of `ClipperOffset.Execute`. -/
abbrev OffsetExecuteFn := clipper.OffsetRequest → clipper.Paths

/-- Signature of `Path.Simplify(a, b)`. -/
abbrev SimplifyFn := data.Path → Micrometer → Micrometer → data.Path

/-- Signature of `MicroPoint.Sub`. -/
abbrev SubFn := MicroPoint → MicroPoint → MicroPoint

/-- Signature of `MicroPoint.ShorterThan`. -/
abbrev ShorterThanFn := MicroPoint → Micrometer → Bool

namespace clip

/-- The struct `layerPart`: an outline with its holes. -/
structure layerPart where
  outline : data.Path
  holes : data.Paths
deriving DecidableEq, Repr

/-- The struct `partitionedLayer`. -/
structure partitionedLayer where
  parts : List layerPart
deriving DecidableEq, Repr

/-- Method `layerPart.Outline()`. -/
def layerPart.Outline (l : layerPart) : data.Path := l.outline

/-- Method `layerPart.Holes()`. -/
def layerPart.Holes (l : layerPart) : data.Paths := l.holes

/-- Method `partitionedLayer.LayerParts()`. -/
def partitionedLayer.LayerParts (p : partitionedLayer) : List layerPart := p.parts

/-- Function `clipperPoint`. -/
def clipperPoint (p : MicroPoint) : clipper.IntPoint :=
  { X := p.X, Y := p.Y }

/-- Function `clipperPaths`: every point of every path converted, in order. -/
def clipperPaths (p : data.Paths) : clipper.Paths :=
  p.foldl (fun result path =>
    result ++ [path.foldl (fun newPath point => newPath ++ [clipperPoint point]) []]) []

/-- Function `microPoint`. -/
def microPoint (p : clipper.IntPoint) : MicroPoint :=
  { X := p.X, Y := p.Y }

/-- Function `microPath`. -/
def microPath (p : clipper.Path) : data.Path :=
  p.foldl (fun result point => result ++ [microPoint point]) []

/-- Function `microPaths`: each path is converted, simplified once more when `simplify`
is set, and its simplification is appended. -/
def microPaths (Simplify : SimplifyFn) (p : clipper.Paths) (simplify : Bool) : data.Paths :=
  p.foldl (fun result path =>
    let mp := microPath path
    let mp := if simplify then Simplify mp (-1) (-1) else mp
    result ++ [Simplify mp (-1) (-1)]) []

/-- State of the point loop of `GenerateLayerParts` (lines 101-118): the engine path built
so far and the index `prev` of the last kept point. -/
structure FilterState where
  path : clipper.Path
  prev : Nat
deriving DecidableEq, Repr

/-- One iteration of the point loop for index `j` and point `layerPoint`. -/
def filterStep (Sub : SubFn) (ShorterThan : ShorterThanFn) (layerPolygon : data.Path)
    (st : FilterState) (jp : Nat × MicroPoint) : FilterState :=
  if jp.1 = 0 then
    { st with path := st.path ++ [clipperPoint (layerPolygon.getD 0 jp.2)] }
  else if ShorterThan (Sub jp.2 (layerPolygon.getD st.prev jp.2)) 100 then
    st
  else
    { path := st.path ++ [clipperPoint jp.2], prev := jp.1 }

/-- The engine path of one layer polygon (lines 99-118). -/
def filterPolygon (Sub : SubFn) (ShorterThan : ShorterThanFn) (layerPolygon : data.Path) :
    clipper.Path :=
  (layerPolygon.enum.foldl (filterStep Sub ShorterThan layerPolygon)
    { path := [], prev := 0 }).path

/-- The list `polyList` handed to the engine (lines 96-121). -/
def buildPolyList (Sub : SubFn) (ShorterThan : ShorterThanFn) (polygons : data.Paths) :
    clipper.Paths :=
  polygons.foldl (fun polyList layerPolygon =>
    polyList ++ [filterPolygon Sub ShorterThan layerPolygon]) []

/-- Go `append` on a slice that may be nil. -/
def goAppend {α : Type} (s : Option (List α)) (x : α) : Option (List α) :=
  match s with
  | none => some [x]
  | some l => some (l ++ [x])

/-- State of the loop over the children of one node (lines 149-154). -/
structure ChildState where
  holes : data.Paths
  polysForNextRound : Option (List clipper.PolyNode)

/-- One child of a node: its contour becomes a hole and its own children are queued. -/
def childStep (st : ChildState) (child : clipper.PolyNode) : ChildState :=
  { holes := st.holes ++ [microPath child.Contour]
    polysForNextRound := child.Childs.foldl goAppend st.polysForNextRound }

/-- State of one round (lines 141-156). -/
structure RoundState where
  polysForNextRound : Option (List clipper.PolyNode)
  parts : List layerPart

/-- One node `p` of the round (lines 146-155). -/
def nodeStep (st : RoundState) (p : clipper.PolyNode) : RoundState :=
  let r := p.Childs.foldl childStep { holes := [], polysForNextRound := st.polysForNextRound }
  { polysForNextRound := r.polysForNextRound
    parts := st.parts ++ [{ outline := microPath p.Contour, holes := r.holes }] }

/-- The loop `for { ... }` of lines 137-157. -/
def roundLoop : Nat → Option (List clipper.PolyNode) → List layerPart → Option (List layerPart)
  | _, none, parts => some parts
  | 0, some _, _ => none
  | fuel + 1, some thisRound, parts =>
    let st := thisRound.foldl nodeStep { polysForNextRound := none, parts := parts }
    roundLoop fuel st.polysForNextRound st.parts

/-- Method `clipperClip.GenerateLayerParts` on the polygons of a layer.  The outer `Option`
is `none` when the fuel does not suffice; the inner one is the returned interface value,
`none` being Go `nil`. -/
def GenerateLayerParts (Execute2 : Execute2Fn) (Sub : SubFn) (ShorterThan : ShorterThanFn)
    (fuel : Nat) (polygons : data.Paths) : Option (Option partitionedLayer × Bool) :=
  let polyList := buildPolyList Sub ShorterThan polygons
  let r := Execute2 .CtUnion .PftEvenOdd .PftEvenOdd polyList
  if !r.2 then
    some (none, false)
  else
    let polysForNextRound : Option (List clipper.PolyNode) :=
      r.1.Childs.foldl goAppend (some [])
    (roundLoop fuel polysForNextRound []).map (fun parts => (some { parts := parts }, true))

/-- The request that iteration `i` of `Inset` hands to the offset engine after `Clear`
(lines 180-185): the outline alone, then the holes, both with square joins as closed
polygons, miter limit 2, and the distance `float64(-int(offset)*i) - float64(offset/2)`:
the negation and the product wrap to 64 bits, both operands are converted to `float64`
and their difference is rounded to `float64`. -/
def offsetRequest (part : layerPart) (offset : Micrometer) (i : Nat) : clipper.OffsetRequest :=
  { added := [(clipperPaths [part.Outline], .JtSquare, .EtClosedPolygon),
              (clipperPaths part.Holes, .JtSquare, .EtClosedPolygon)]
    MiterLimit := 2
    delta := roundF64 (roundF64 (wrap64 (wrap64 (-offset) * (i : Int)))
      - roundF64 (wrap64 (offset.tdiv 2))) }

/-- State of the loop of `Inset`.  The field `executed` is a log of the engine executions
(ring index and request, oldest first); it is not a variable of the source and no branch
reads it. -/
structure InsetState where
  insets : List data.Paths
  insetsFinished : Bool
  executed : List (Nat × clipper.OffsetRequest)
deriving DecidableEq, Repr

/-- One iteration of the loop of `Inset` (lines 179-191). -/
def insetStep (Execute : OffsetExecuteFn) (Simplify : SimplifyFn) (part : layerPart)
    (offset : Micrometer) (st : InsetState) (i : Nat) : InsetState :=
  if !st.insetsFinished then
    let req := offsetRequest part offset i
    let newInset := Execute req
    if newInset.length ≤ 0 then
      { st with insetsFinished := true, executed := st.executed ++ [(i, req)] }
    else
      { st with insets := st.insets ++ [microPaths Simplify newInset true]
                executed := st.executed ++ [(i, req)] }
  else
    st

/-- The loop `for i := 0; i < insetCount; i++` of `Inset` (lines 171-192). -/
def insetLoop (Execute : OffsetExecuteFn) (Simplify : SimplifyFn) (part : layerPart)
    (offset : Micrometer) (insetCount : Int) : InsetState :=
  (List.range insetCount.toNat).foldl (insetStep Execute Simplify part offset)
    { insets := [], insetsFinished := false, executed := [] }

/-- Method `clipperClip.Inset`. -/
def Inset (Execute : OffsetExecuteFn) (Simplify : SimplifyFn) (part : layerPart)
    (offset : Micrometer) (insetCount : Int) : List data.Paths :=
  (insetLoop Execute Simplify part offset insetCount).insets

/-- The engine executions of one call of `Inset`, in the order they happen. -/
def InsetExecuted (Execute : OffsetExecuteFn) (Simplify : SimplifyFn) (part : layerPart)
    (offset : Micrometer) (insetCount : Int) : List (Nat × clipper.OffsetRequest) :=
  (insetLoop Execute Simplify part offset insetCount).executed

/-- Method `clipperClip.InsetLayer`. -/
def InsetLayer (Execute : OffsetExecuteFn) (Simplify : SimplifyFn) (layer : partitionedLayer)
    (offset : Micrometer) (insetCount : Int) : List (List data.Paths) :=
  layer.LayerParts.foldl (fun result part =>
    result ++ [Inset Execute Simplify part offset insetCount]) []

/-! ### Reference descriptions used by the statements about `clip` -/

/-- The list held by a slice that may be nil. -/
def sliceList {α : Type} (s : Option (List α)) : List α := s.getD []

/-- The part a node yields in the reference walk: the node's contour is the outline and
the contours of its direct children, in child order, are the holes. -/
def partOfNode (p : clipper.PolyNode) : layerPart :=
  { outline := microPath p.Contour
    holes := p.Childs.map (fun child => microPath child.Contour) }

/-- The children of the holes of a round: the grandchildren of its nodes, in order. -/
def grandchildren (round : List clipper.PolyNode) : List clipper.PolyNode :=
  round.flatMap (fun p => p.Childs.flatMap (fun child => child.Childs))

/-- Round `r` of the reference walk: round 0 is the list of top-level nodes, the next
round is the list of grandchildren of the current one. -/
def roundNodes : Nat → List clipper.PolyNode → List clipper.PolyNode
  | 0, forest => forest
  | r + 1, forest => roundNodes r (grandchildren forest)

/-- The parts of the first `rounds` rounds of the reference walk, round after round. -/
def referenceWalk (rounds : Nat) (forest : List clipper.PolyNode) : List layerPart :=
  (List.range rounds).flatMap (fun r => (roundNodes r forest).map partOfNode)

mutual
/-- Number of levels of the tree below and including a node. -/
def nodeDepth : clipper.PolyNode → Nat
  | .mk _ cs => forestDepth cs + 1
/-- Number of levels of a forest; the empty forest has none. -/
def forestDepth : List clipper.PolyNode → Nat
  | [] => 0
  | p :: ps => max (nodeDepth p) (forestDepth ps)
end

/-- The result of the offset engine for ring index `i` of a part. -/
def ring (Execute : OffsetExecuteFn) (part : layerPart) (offset : Micrometer) (i : Nat) :
    clipper.Paths :=
  Execute (offsetRequest part offset i)

/-- The least index below `n` at which `r` is empty, `n` when there is none. -/
def firstEmptyBelow (r : Nat → clipper.Paths) (n : Nat) : Nat :=
  ((List.range n).find? (fun i => (r i).isEmpty)).getD n

/-- The least ring index in `[0, N)` whose engine result is empty, `N` when there is
none, and 0 when `N ≤ 0`. -/
def firstEmptyRing (Execute : OffsetExecuteFn) (part : layerPart) (offset : Micrometer)
    (N : Int) : Nat :=
  firstEmptyBelow (ring Execute part offset) N.toNat

/-- The points kept after the kept point `prev`: a point that is `ShorterThan 100` away
from the most recent kept point is dropped, any other point is kept and becomes the most
recent kept point. -/
def keepFar (Sub : SubFn) (ShorterThan : ShorterThanFn) :
    MicroPoint → List MicroPoint → List MicroPoint
  | _, [] => []
  | prev, q :: qs =>
    if ShorterThan (Sub q prev) 100 then keepFar Sub ShorterThan prev qs
    else q :: keepFar Sub ShorterThan q qs

/-- The filter of too-near points on one polygon: the first point is always kept, the
following ones are filtered against the previously kept point. -/
def referenceFilter (Sub : SubFn) (ShorterThan : ShorterThanFn) : data.Path → data.Path
  | [] => []
  | p :: ps => p :: keepFar Sub ShorterThan p ps

mutual
/-- Number of nodes of the subtree of a node that lie on a counted level; `counted` tells
whether the level of the node itself is counted, and the levels alternate. -/
def nodeCount (counted : Bool) : clipper.PolyNode → Nat
  | .mk _ cs => (if counted then 1 else 0) + forestCount (!counted) cs
/-- Number of nodes of a forest that lie on a counted level; `counted` tells whether the
top level is counted, and the levels alternate. -/
def forestCount (counted : Bool) : List clipper.PolyNode → Nat
  | [] => 0
  | p :: ps => nodeCount counted p + forestCount counted ps
end

mutual
/-- Number of nodes of the subtree of a node. -/
def nodeSize : clipper.PolyNode → Nat
  | .mk _ cs => forestSize cs + 1
/-- Number of nodes of a forest. -/
def forestSize : List clipper.PolyNode → Nat
  | [] => 0
  | p :: ps => nodeSize p + forestSize ps
end

/-- Number of nodes of a forest at even depth, the top level being depth 0. -/
def evenDepthNodes (forest : List clipper.PolyNode) : Nat := forestCount true forest

/-- Number of nodes of a forest at odd depth, the top level being depth 0. -/
def oddDepthNodes (forest : List clipper.PolyNode) : Nat := forestCount false forest

/-- Total number of holes over a list of parts. -/
def totalHoles (parts : List layerPart) : Nat :=
  (parts.map (fun part => part.holes.length)).sum

/-- Modelled from the spec: `Path.Simplify` is declared outside the embedded files; section
8 requires that simplifying an already simplified path returns an equal path.  This is
the requirement for the arguments `(-1, -1)` used by `microPaths`. -/
def SimplifyIdempotent (Simplify : SimplifyFn) : Prop :=
  ∀ p : data.Path, Simplify (Simplify p (-1) (-1)) (-1) (-1) = Simplify p (-1) (-1)

end clip

/-! ## Package `slicer` -/

namespace slicer

/-- Modelled from the spec: the struct `segment` is declared outside the embedded files;
a segment has two points, the index of the originating triangle and a consumed flag. -/
structure segment where
  start : MicroPoint
  stop : MicroPoint
  faceIndex : Nat
  addedToPolygon : Bool
deriving DecidableEq, Repr

/-- Modelled from the spec: the struct `layer` is declared outside the embedded files;
it holds the layer number, the list of segments and the mapping from triangle index to
segment index.  The Go map is an association list whose first entry for a key is the
current one. -/
structure layer where
  number : Int
  segments : List segment
  faceToSegmentIndex : List (Nat × Nat)
deriving DecidableEq, Repr

/-- Modelled from the spec: `NewLayer` is declared outside the embedded files; a new layer
has its number, no segments and an empty face-to-segment mapping. -/
def NewLayer (number : Int) : layer :=
  { number := number, segments := [], faceToSegmentIndex := [] }

/-- Map read `faceToSegmentIndex[i]`, `none` when the key is absent. -/
def layer.segmentIndexOf (l : layer) (i : Nat) : Option Nat :=
  l.faceToSegmentIndex.lookup i

/-- The three points `om.FacePoints(i)` of a face. -/
structure FacePoints where
  p0 : MicroVec3
  p1 : MicroVec3
  p2 : MicroVec3
deriving DecidableEq, Repr

/-- Modelled from the spec: `model.OptimizedModel` is declared outside the embedded files;
it gives the bounding size of the solid and an indexed face list, each face as three
points. -/
structure OptimizedModel where
  Size : MicroVec3
  Faces : List FacePoints
deriving DecidableEq, Repr

/-- Signature of `SliceFace(z, p0, p1, p2)`. -/
abbrev SliceFaceFn := Micrometer → MicroVec3 → MicroVec3 → MicroVec3 → segment

/-- The struct `slicer`. -/
structure slicer where
  modelSize : MicroVec3
  layers : List (Option layer)
deriving DecidableEq, Repr

/-- The value of `minZ` after lines 34-42. -/
def faceMinZ (points : FacePoints) : Micrometer :=
  let minZ := points.p0.Z
  let minZ := if points.p1.Z < minZ then points.p1.Z else minZ
  if points.p2.Z < minZ then points.p2.Z else minZ

/-- The value of `maxZ` after lines 35-49. -/
def faceMaxZ (points : FacePoints) : Micrometer :=
  let maxZ := points.p0.Z
  let maxZ := if points.p1.Z > maxZ then points.p1.Z else maxZ
  if points.p2.Z > maxZ then points.p2.Z else maxZ

/-- The `switch` of lines 68-95: the three vertex arguments, in order, of the `SliceFace`
call of the first case that holds, `none` for the `default` case. -/
def sliceCase (z : Micrometer) (points : FacePoints) :
    Option (MicroVec3 × MicroVec3 × MicroVec3) :=
  if points.p0.Z < z ∧ points.p1.Z ≥ z ∧ points.p2.Z ≥ z then
    some (points.p0, points.p2, points.p1)
  else if points.p0.Z > z ∧ points.p1.Z < z ∧ points.p2.Z < z then
    some (points.p0, points.p1, points.p2)
  else if points.p1.Z < z ∧ points.p0.Z ≥ z ∧ points.p2.Z ≥ z then
    some (points.p1, points.p0, points.p2)
  else if points.p1.Z > z ∧ points.p0.Z < z ∧ points.p2.Z < z then
    some (points.p1, points.p2, points.p0)
  else if points.p2.Z < z ∧ points.p1.Z ≥ z ∧ points.p0.Z ≥ z then
    some (points.p2, points.p1, points.p0)
  else if points.p2.Z > z ∧ points.p1.Z < z ∧ points.p0.Z < z then
    some (points.p2, points.p0, points.p1)
  else
    none

/-- Lines 97-100: the face is recorded in the index under the current number of
segments, the segment is stamped with the face index and a cleared flag, and appended. -/
def addSegment (l : layer) (i : Nat) (seg : segment) : layer :=
  { l with
    faceToSegmentIndex := (i, l.segments.length) :: l.faceToSegmentIndex
    segments := l.segments ++ [{ seg with faceIndex := i, addedToPolygon := false }] }

/-- Lines 67-100 on the layer `l`: the `default` case leaves the layer as it is, every
other case calls `SliceFace` and files its segment. -/
def fileSegment (SliceFace : SliceFaceFn) (i : Nat) (z : Micrometer) (points : FacePoints)
    (l : layer) : layer :=
  match sliceCase z points with
  | none => l
  | some (a, b, c) => addSegment l i (SliceFace z a b c)

/-- Lines 61-65: the layer at index `n`, created with `NewLayer` when the entry is nil. -/
def layerAt (layers : List (Option layer)) (n : Nat) : layer :=
  (layers.getD n none).getD (NewLayer n)

/-- The body of the layer loop for one `layerNr` (lines 53-100).  An index past the end
of `s.layers` is a panic. -/
def layerStep (SliceFace : SliceFaceFn) (initialThickness layerThickness : Micrometer)
    (i : Nat) (points : FacePoints) (layers : List (Option layer)) (layerNr : Int) :
    Option (List (Option layer)) :=
  let z := layerNr * layerThickness + initialThickness
  if z < faceMinZ points then
    some layers
  else if layerNr < 0 then
    some layers
  else if layerNr.toNat < layers.length then
    some (layers.set layerNr.toNat
      (some (fileSegment SliceFace i z points (layerAt layers layerNr.toNat))))
  else
    none

/-- The values `layerNr` takes in the loop of line 52, in order. -/
def layerNrs (initialThickness layerThickness : Micrometer) (points : FacePoints) : List Int :=
  let first := (faceMinZ points - initialThickness).tdiv layerThickness
  let last := (faceMaxZ points - initialThickness).tdiv layerThickness
  (List.range (last + 1 - first).toNat).map (fun (k : Nat) => first + (k : Int))

/-- The body of the face loop for face `i` (lines 33-101). -/
def faceStep (SliceFace : SliceFaceFn) (initialThickness layerThickness : Micrometer)
    (layers : List (Option layer)) (ip : Nat × FacePoints) : Option (List (Option layer)) :=
  (layerNrs initialThickness layerThickness ip.2).foldlM
    (layerStep SliceFace initialThickness layerThickness ip.1 ip.2) layers

/-- The bucketing loop over all faces (lines 32-102). -/
def bucketFaces (SliceFace : SliceFaceFn) (initialThickness layerThickness : Micrometer)
    (faces : List FacePoints) (layers : List (Option layer)) : Option (List (Option layer)) :=
  faces.enum.foldlM (faceStep SliceFace initialThickness layerThickness) layers

/-- Function `NewSlicer` up to the end of the bucketing loop (lines 22-102); the pass of
`makePolygons` over the layers that follows is outside the embedded files.  A zero layer
thickness (division by zero) and a negative layer count are panics. -/
def NewSlicer (SliceFace : SliceFaceFn) (om : OptimizedModel)
    (initialThickness layerThickness : Micrometer) : Option slicer :=
  if layerThickness = 0 then
    none
  else
    let layerCount := (om.Size.Z - initialThickness).tdiv layerThickness + 1
    if layerCount < 0 then
      none
    else
      (bucketFaces SliceFace initialThickness layerThickness om.Faces
        (List.replicate layerCount.toNat none)).map
        (fun layers => { modelSize := om.Size, layers := layers })

/-! ### Descriptions used by the statements about `slicer` -/

/-- Number of vertices of the face strictly below `z`. -/
def belowCount (z : Micrometer) (points : FacePoints) : Nat :=
  (if points.p0.Z < z then 1 else 0) + (if points.p1.Z < z then 1 else 0)
    + (if points.p2.Z < z then 1 else 0)

/-- The layer loop of `NewSlicer` tests the face at `layerNr`: none of the two `continue`
guards fires and the layer index is within `s.layers`. -/
abbrev Tested (initialThickness layerThickness : Micrometer) (points : FacePoints)
    (layers : List (Option layer)) (layerNr : Int) : Prop :=
  ¬ (layerNr * layerThickness + initialThickness < faceMinZ points) ∧ ¬ (layerNr < 0)
    ∧ layerNr.toNat < layers.length

/-- The face-to-segment index and the segment list of a layer agree: an entry `e` for
face `i` is a position of `segments` whose segment has face index `i`, and the segment at
position `k` belongs to a face whose entry is `k`. -/
def layer.indexAgrees (l : layer) : Prop :=
  (∀ i e, l.segmentIndexOf i = some e →
    (l.segments[e]?).map (fun seg => seg.faceIndex) = some i)
  ∧ (∀ k seg, l.segments[k]? = some seg → l.segmentIndexOf seg.faceIndex = some k)

/-- Every face recorded in the index of the layer has a number below `n`. -/
def layer.keysBelow (l : layer) (n : Nat) : Prop :=
  ∀ i e, l.segmentIndexOf i = some e → i < n

/-- Invariant of the layer loop for face `i` before the iteration for `m`: every layer
agrees with its index and holds faces up to `i` only, and the layers from `m` on hold
faces below `i` only. -/
def LayersInv (layers : List (Option layer)) (i : Nat) (m : Int) : Prop :=
  ∀ (pos : Nat) (l : layer), layers[pos]? = some (some l) →
    l.indexAgrees ∧ l.keysBelow (i + 1) ∧ (m ≤ (pos : Int) → l.keysBelow i)

/-- The segments of the layer are in face order with at most one segment per face: the
face indices along `segments` increase strictly; all of them are below `n` and every
segment has its consumed flag cleared. -/
def layer.ordered (l : layer) (n : Nat) : Prop :=
  (l.segments.map (fun seg => seg.faceIndex)).Pairwise (fun a b => a < b)
  ∧ ∀ seg ∈ l.segments, seg.faceIndex < n ∧ seg.addedToPolygon = false

/-- Every segment of the layer belongs to a face below `n` of `faces` and is the result of
`SliceFace` at height `z` on the vertex arguments the dispatch chooses for that face at
`z`, stamped with the face index and a cleared flag. -/
def layer.cutAt (SliceFace : SliceFaceFn) (faces : List FacePoints) (z : Micrometer)
    (l : layer) (n : Nat) : Prop :=
  ∀ seg ∈ l.segments, seg.faceIndex < n ∧
    ∃ (points : FacePoints) (a b c : MicroVec3),
      faces[seg.faceIndex]? = some points
      ∧ sliceCase z points = some (a, b, c)
      ∧ seg = { SliceFace z a b c with faceIndex := seg.faceIndex, addedToPolygon := false }

/-! ### The layer count and the layer indices in 64-bit arithmetic -/

/-- The value of `layerCount` (line 26) in 64-bit arithmetic: the difference, the
truncating quotient and the sum each wrap. -/
def layerCount64 (om : OptimizedModel) (initialThickness layerThickness : Micrometer) : Int :=
  wrap64 (wrap64 ((wrap64 (om.Size.Z - initialThickness)).tdiv layerThickness) + 1)

/-- The initial value of `layerNr` in the loop of line 52, in 64-bit arithmetic. -/
def firstLayerNr64 (initialThickness layerThickness : Micrometer) (points : FacePoints) : Int :=
  wrap64 ((wrap64 (faceMinZ points - initialThickness)).tdiv layerThickness)

/-- The bound `(maxZ-initialThickness)/layerThickness` of the loop of line 52, in 64-bit
arithmetic. -/
def lastLayerNr64 (initialThickness layerThickness : Micrometer) (points : FacePoints) : Int :=
  wrap64 ((wrap64 (faceMaxZ points - initialThickness)).tdiv layerThickness)

/-- The values of `layerNr` with which the first `fuel` passes of the layer loop (lines
52-65), entered with the value `layerNr`, index `s.layers`, in 64-bit arithmetic: a pass
happens while `layerNr` is at most the bound, it indexes `s.layers` unless one of the two
`continue` guards fires, and `layerNr++` wraps.  The list goes on after an index that is
out of range, where the program stops with a panic. -/
def layerIndices64 (initialThickness layerThickness : Micrometer) (points : FacePoints) :
    Nat → Int → List Int
  | 0, _ => []
  | fuel + 1, layerNr =>
    if layerNr ≤ lastLayerNr64 initialThickness layerThickness points then
      (if wrap64 (wrap64 (layerNr * layerThickness) + initialThickness) < faceMinZ points then []
        else if layerNr < 0 then [] else [layerNr])
        ++ layerIndices64 initialThickness layerThickness points fuel (wrap64 (layerNr + 1))
    else []

end slicer

/-! ## Sample inputs

Concrete values for the parameters, used to evaluate the definitions. -/

namespace demo

/-- Engine contour of the square from 0 to 2000. -/
def outerSquare : clipper.Path :=
  [{ X := 0, Y := 0 }, { X := 2000, Y := 0 }, { X := 2000, Y := 2000 }, { X := 0, Y := 2000 }]

/-- Engine contour of the square from 500 to 1500. -/
def innerSquare : clipper.Path :=
  [{ X := 500, Y := 500 }, { X := 1500, Y := 500 }, { X := 1500, Y := 1500 },
   { X := 500, Y := 1500 }]

/-- The two concentric squares as layer polygons. -/
def squares : data.Paths :=
  [clip.microPath outerSquare, clip.microPath innerSquare]

/-- Contour tree of the two concentric squares: the inner one is the only child of the
outer one. -/
def squaresTree : clipper.PolyNode :=
  .mk [] [.mk outerSquare [.mk innerSquare []]]

/-- A union engine that succeeds with `squaresTree`. -/
def unionSquares : Execute2Fn := fun _ _ _ _ => (squaresTree, true)

/-- A union engine that reports failure. -/
def unionFails : Execute2Fn := fun _ _ _ _ => (.mk [] [], false)

/-- Componentwise difference of two points. -/
def Sub : SubFn := fun a b => { X := a.X - b.X, Y := a.Y - b.Y }

/-- Squared length below the squared bound. -/
def ShorterThan : ShorterThanFn := fun p l => decide (p.X * p.X + p.Y * p.Y < l * l)

/-- The part whose outline is the square from 0 to 1000, without holes. -/
def squarePart : clip.layerPart :=
  { outline := [{ X := 0, Y := 0 }, { X := 1000, Y := 0 }, { X := 1000, Y := 1000 },
                { X := 0, Y := 1000 }]
    holes := [] }

/-- An offset engine that shrinks the 1000 square: the result is one square as long as
the inward distance stays below 500, and empty from there on. -/
def offsetSquare : OffsetExecuteFn := fun req =>
  if req.delta ≤ -500 then []
  else [[{ X := -req.delta, Y := -req.delta }, { X := 1000 + req.delta, Y := -req.delta },
         { X := 1000 + req.delta, Y := 1000 + req.delta },
         { X := -req.delta, Y := 1000 + req.delta }]]

/-- A simplification that keeps every point. -/
def Simplify : SimplifyFn := fun p _ _ => p

/-- Crossing point of the edge from `a` to `b` with the plane at height `z`, by linear
interpolation with truncating division. -/
def crossing (z : Micrometer) (a b : MicroVec3) : MicroPoint :=
  { X := a.X + ((b.X - a.X) * (z - a.Z)).tdiv (b.Z - a.Z)
    Y := a.Y + ((b.Y - a.Y) * (z - a.Z)).tdiv (b.Z - a.Z) }

/-- A sample `SliceFace`: the segment from the crossing on the edge of the first two
vertices to the crossing on the edge of the first and third. -/
def SliceFace : slicer.SliceFaceFn := fun z p0 p1 p2 =>
  { start := crossing z p0 p1, stop := crossing z p0 p2, faceIndex := 0,
    addedToPolygon := true }

/-- A face with one vertex at height 0 and two at height 200. -/
def faceOneLow : slicer.FacePoints :=
  { p0 := { X := 0, Y := 0, Z := 0 }
    p1 := { X := 1000, Y := 0, Z := 200 }
    p2 := { X := 0, Y := 1000, Z := 200 } }

/-- A face with two vertices at height 0 and one at height 200. -/
def faceTwoLow : slicer.FacePoints :=
  { p0 := { X := 0, Y := 0, Z := 200 }
    p1 := { X := 1000, Y := 0, Z := 0 }
    p2 := { X := 0, Y := 1000, Z := 0 } }

/-- A face with two vertices at height 0 and one at height 100. -/
def faceTouching : slicer.FacePoints :=
  { p0 := { X := 0, Y := 0, Z := 100 }
    p1 := { X := 1000, Y := 0, Z := 0 }
    p2 := { X := 0, Y := 1000, Z := 0 } }

/-- A face lying in the plane at height 100. -/
def faceFlat : slicer.FacePoints :=
  { p0 := { X := 0, Y := 0, Z := 100 }
    p1 := { X := 1000, Y := 0, Z := 100 }
    p2 := { X := 0, Y := 1000, Z := 100 } }

/-- A model of height 200 with two faces. -/
def model : slicer.OptimizedModel :=
  { Size := { X := 1000, Y := 1000, Z := 200 }, Faces := [faceOneLow, faceTwoLow] }

/-- A model of height 100 whose only face touches the plane at 100 with one vertex. -/
def modelTouching : slicer.OptimizedModel :=
  { Size := { X := 1000, Y := 1000, Z := 100 }, Faces := [faceTouching] }

/-- The layer at height 100 of `model` after bucketing. -/
def slicedLayer0 : slicer.layer :=
  { number := 0
    segments := [{ start := { X := 0, Y := 500 }, stop := { X := 500, Y := 0 }, faceIndex := 0,
                   addedToPolygon := false },
                 { start := { X := 500, Y := 0 }, stop := { X := 0, Y := 500 }, faceIndex := 1,
                   addedToPolygon := false }]
    faceToSegmentIndex := [(1, 1), (0, 0)] }

/-- The layer at height 200 of `model` after bucketing. -/
def slicedLayer1 : slicer.layer :=
  { number := 1
    segments := [{ start := { X := 0, Y := 1000 }, stop := { X := 1000, Y := 0 },
                   faceIndex := 0, addedToPolygon := false }]
    faceToSegmentIndex := [(0, 0)] }

/-- The slicer state of `model` with first layer at 100 and layer thickness 100. -/
def sliced : slicer.slicer :=
  { modelSize := { X := 1000, Y := 1000, Z := 200 }
    layers := [some slicedLayer0, some slicedLayer1] }

/-- A polygon whose second point is 50 away from the first and whose fourth point is 50
away from the third. -/
def nearPolygon : data.Path :=
  [{ X := 0, Y := 0 }, { X := 50, Y := 0 }, { X := 1000, Y := 0 }, { X := 1000, Y := 50 },
   { X := 0, Y := 1000 }]

/-- A face between heights 0 and 150, below the first layer at height 200. -/
def faceLow : slicer.FacePoints :=
  { p0 := { X := 0, Y := 0, Z := 0 }
    p1 := { X := 1000, Y := 0, Z := 150 }
    p2 := { X := 0, Y := 1000, Z := 150 } }

/-- A face between heights 250 and 400. -/
def faceHigh : slicer.FacePoints :=
  { p0 := { X := 0, Y := 0, Z := 250 }
    p1 := { X := 1000, Y := 0, Z := 400 }
    p2 := { X := 0, Y := 1000, Z := 400 } }

/-- A model of height 400 with the faces `faceLow` and `faceHigh`. -/
def modelLow : slicer.OptimizedModel :=
  { Size := { X := 1000, Y := 1000, Z := 400 }, Faces := [faceLow, faceHigh] }

/-- A union engine that succeeds with the empty forest. -/
def unionEmpty : Execute2Fn := fun _ _ _ _ => (.mk [] [], true)

/-- The first segment of `slicedLayer0`. -/
def firstSegment : slicer.segment :=
  { start := { X := 0, Y := 500 }, stop := { X := 500, Y := 0 }, faceIndex := 0,
    addedToPolygon := false }

/-- An offset engine whose result is never empty. -/
def offsetAlways : OffsetExecuteFn := fun _ => [[{ X := 0, Y := 0 }]]

/-- A simplification that removes every point equal to its predecessor. -/
def SimplifyRepeats : SimplifyFn := fun p _ _ => p.destutter (fun a b => a ≠ b)

/-- A face with all three vertices at the lowest 64-bit height. -/
def faceLowest : slicer.FacePoints :=
  { p0 := { X := 0, Y := 0, Z := -2 ^ 63 }
    p1 := { X := 1000, Y := 0, Z := -2 ^ 63 }
    p2 := { X := 0, Y := 1000, Z := -2 ^ 63 } }

/-- A model of height 1000 whose only face is `faceLowest`. -/
def modelLowest : slicer.OptimizedModel :=
  { Size := { X := 1000, Y := 1000, Z := 1000 }, Faces := [faceLowest] }

end demo

/-! ## Auxiliary lemmas -/

namespace clip

theorem foldl_snoc_eq_map {α β : Type} (f : α → β) (l : List α) (init : List β) :
    l.foldl (fun acc x => acc ++ [f x]) init = init ++ l.map f := by
  induction l generalizing init with
  | nil => simp
  | cons a t ih => simp [ih]

theorem microPath_eq_map (p : clipper.Path) : microPath p = p.map microPoint := by
  unfold microPath
  simpa using foldl_snoc_eq_map microPoint p []

theorem sliceList_foldl_goAppend {α : Type} (l : List α) (s : Option (List α)) :
    sliceList (l.foldl goAppend s) = sliceList s ++ l := by
  induction l generalizing s with
  | nil => simp
  | cons a t ih =>
    rw [List.foldl_cons, ih]
    cases s <;> simp [goAppend, sliceList]

theorem foldl_goAppend_eq_none {α : Type} (l : List α) (s : Option (List α)) :
    l.foldl goAppend s = none ↔ s = none ∧ l = [] := by
  induction l generalizing s with
  | nil => simp
  | cons a t ih =>
    rw [List.foldl_cons, ih]
    cases s <;> simp [goAppend]

theorem foldl_childStep (cs : List clipper.PolyNode) (st : ChildState) :
    (cs.foldl childStep st).holes = st.holes ++ cs.map (fun child => microPath child.Contour)
    ∧ sliceList (cs.foldl childStep st).polysForNextRound
        = sliceList st.polysForNextRound ++ cs.flatMap (fun child => child.Childs)
    ∧ ((cs.foldl childStep st).polysForNextRound = none ↔
        st.polysForNextRound = none ∧ cs.flatMap (fun child => child.Childs) = []) := by
  induction cs generalizing st with
  | nil => simp
  | cons c t ih =>
    rw [List.foldl_cons]
    obtain ⟨h1, h2, h3⟩ := ih (childStep st c)
    refine ⟨?_, ?_, ?_⟩
    · rw [h1]; simp [childStep]
    · rw [h2]; simp [childStep, sliceList_foldl_goAppend]
    · rw [h3]; simp [childStep, foldl_goAppend_eq_none, and_assoc]

theorem foldl_nodeStep (round : List clipper.PolyNode) (st : RoundState) :
    (round.foldl nodeStep st).parts = st.parts ++ round.map partOfNode
    ∧ sliceList (round.foldl nodeStep st).polysForNextRound
        = sliceList st.polysForNextRound ++ grandchildren round
    ∧ ((round.foldl nodeStep st).polysForNextRound = none ↔
        st.polysForNextRound = none ∧ grandchildren round = []) := by
  induction round generalizing st with
  | nil => simp [grandchildren]
  | cons p t ih =>
    rw [List.foldl_cons]
    obtain ⟨h1, h2, h3⟩ := ih (nodeStep st p)
    obtain ⟨c1, c2, c3⟩ := foldl_childStep p.Childs
      { holes := [], polysForNextRound := st.polysForNextRound }
    refine ⟨?_, ?_, ?_⟩
    · rw [h1]; simp [nodeStep, partOfNode, c1]
    · rw [h2]; simp [nodeStep, c2, grandchildren]
    · rw [h3]; simp [nodeStep, c3, grandchildren, and_assoc]

theorem roundNodes_nil (r : Nat) : roundNodes r [] = [] := by
  induction r with
  | zero => rfl
  | succ n ih => simpa [roundNodes, grandchildren] using ih

theorem referenceWalk_nil (R : Nat) : referenceWalk R [] = [] := by
  simp [referenceWalk, roundNodes_nil]

theorem referenceWalk_succ (R : Nat) (forest : List clipper.PolyNode) :
    referenceWalk (R + 1) forest
      = forest.map partOfNode ++ referenceWalk R (grandchildren forest) := by
  simp [referenceWalk, List.range_succ_eq_map, List.flatMap_cons, List.flatMap_map, roundNodes,
    Function.comp_def]

theorem forestDepth_append (a b : List clipper.PolyNode) :
    forestDepth (a ++ b) = max (forestDepth a) (forestDepth b) := by
  induction a with
  | nil => simp [forestDepth]
  | cons p t ih => simp [forestDepth, ih, max_assoc]

theorem forestDepth_childs (p : clipper.PolyNode) : forestDepth p.Childs + 1 = nodeDepth p := by
  cases p with
  | mk c cs => simp [clipper.PolyNode.Childs, nodeDepth]

theorem forestDepth_flatMap_childs (cs : List clipper.PolyNode) :
    forestDepth (cs.flatMap (fun child => child.Childs)) + 1 ≤ forestDepth cs ∨
      cs.flatMap (fun child => child.Childs) = [] := by
  induction cs with
  | nil => right; rfl
  | cons c t ih =>
    have hc := forestDepth_childs c
    rcases ih with h | h
    · left
      simp only [List.flatMap_cons, forestDepth_append, forestDepth]
      omega
    · by_cases hcc : c.Childs = []
      · right; simp [hcc, h]
      · left
        simp only [List.flatMap_cons, h, List.append_nil, forestDepth]
        omega

theorem forestDepth_grandchildren (round : List clipper.PolyNode) :
    forestDepth (grandchildren round) + 2 ≤ forestDepth round ∨ grandchildren round = [] := by
  induction round with
  | nil => right; rfl
  | cons p t ih =>
    have hp := forestDepth_childs p
    have hg : grandchildren (p :: t)
        = p.Childs.flatMap (fun child => child.Childs) ++ grandchildren t := by
      simp [grandchildren]
    rw [hg]
    rcases forestDepth_flatMap_childs p.Childs with h1 | h1 <;> rcases ih with h2 | h2
    · left; simp only [forestDepth_append, forestDepth]; omega
    · left; simp only [h2, List.append_nil, forestDepth]; omega
    · left; simp only [h1, List.nil_append, forestDepth]; omega
    · right; simp [h1, h2]

theorem forestDepth_pos_of_ne_nil (l : List clipper.PolyNode) (h : l ≠ []) :
    1 ≤ forestDepth l := by
  cases l with
  | nil => exact absurd rfl h
  | cons p t =>
    have := forestDepth_childs p
    simp only [forestDepth]; omega

theorem roundLoop_none (fuel : Nat) (parts : List layerPart) :
    roundLoop fuel none parts = some parts := by
  cases fuel <;> rfl

theorem roundLoop_eq_referenceWalk (fuel : Nat) :
    ∀ (R : Nat) (round : List clipper.PolyNode) (parts : List layerPart),
      1 ≤ fuel → forestDepth round ≤ 2 * fuel → 1 ≤ R → forestDepth round ≤ 2 * R →
      roundLoop fuel (some round) parts = some (parts ++ referenceWalk R round) := by
  induction fuel with
  | zero => intro R round parts h; omega
  | succ f ih =>
    intro R round parts _ hd hR hRd
    obtain ⟨R', rfl⟩ : ∃ R', R = R' + 1 := ⟨R - 1, by omega⟩
    obtain ⟨h1, h2, h3⟩ := foldl_nodeStep round { polysForNextRound := none, parts := parts }
    simp only [roundLoop]
    rw [referenceWalk_succ, h1]
    by_cases hg : grandchildren round = []
    · rw [(h3.2 ⟨rfl, hg⟩), roundLoop_none, hg, referenceWalk_nil]
      simp
    · have hdep : forestDepth (grandchildren round) + 2 ≤ forestDepth round := by
        rcases forestDepth_grandchildren round with h | h
        · exact h
        · exact absurd h hg
      have hpos := forestDepth_pos_of_ne_nil _ hg
      have hnext : (round.foldl nodeStep { polysForNextRound := none, parts := parts }).polysForNextRound
          = some (grandchildren round) := by
        cases hx : (round.foldl nodeStep
            { polysForNextRound := none, parts := parts }).polysForNextRound with
        | none => exact absurd (h3.1 hx).2 hg
        | some l =>
          rw [hx] at h2
          simpa [sliceList] using h2
      rw [hnext, ih R' (grandchildren round) _ (by omega) (by omega) (by omega) (by omega)]
      simp

end clip


/-! ## Layer partitioning -/

namespace clip

theorem GenerateLayerParts_of_ok (Execute2 : Execute2Fn) (Sub : SubFn)
    (ShorterThan : ShorterThanFn) (polygons : data.Paths) (fuel R : Nat)
    (tree : clipper.PolyNode)
    (hexec : Execute2 .CtUnion .PftEvenOdd .PftEvenOdd (buildPolyList Sub ShorterThan polygons)
      = (tree, true))
    (hfuel : 1 ≤ fuel) (hdepth : forestDepth tree.Childs ≤ 2 * fuel)
    (hR : 1 ≤ R) (hRdepth : forestDepth tree.Childs ≤ 2 * R) :
    GenerateLayerParts Execute2 Sub ShorterThan fuel polygons
        = some (some { parts := referenceWalk R tree.Childs }, true) := by
  have hstart : tree.Childs.foldl goAppend (some []) = some tree.Childs := by
    have h := sliceList_foldl_goAppend tree.Childs (some [])
    cases hx : tree.Childs.foldl goAppend (some []) with
    | none => simp [foldl_goAppend_eq_none] at hx
    | some l => rw [hx] at h; simpa [sliceList] using h
  simp only [GenerateLayerParts, hexec, hstart, Bool.not_true, Bool.false_eq_true, if_false]
  rw [roundLoop_eq_referenceWalk fuel R tree.Childs [] hfuel hdepth hR hRdepth]
  simp

/-- C1: when the union succeeds with contour tree `tree`, `GenerateLayerParts` (given fuel
for the rounds) returns exactly the parts of the round-by-round reference walk over the
top-level nodes of `tree`, listed round after round; any number `R` of rounds that covers
the forest gives the same list.  In particular, for a forest with one top-level node whose
only child has no children, the result is exactly one part: the outer contour is the
outline and the inner contour the only hole. -/
theorem GenerateLayerParts_eq_referenceWalk (Execute2 : Execute2Fn) (Sub : SubFn)
    (ShorterThan : ShorterThanFn) (polygons : data.Paths) (fuel R : Nat)
    (tree : clipper.PolyNode)
    (hexec : Execute2 .CtUnion .PftEvenOdd .PftEvenOdd (buildPolyList Sub ShorterThan polygons)
      = (tree, true))
    (hfuel : 1 ≤ fuel) (hdepth : forestDepth tree.Childs ≤ 2 * fuel)
    (hR : 1 ≤ R) (hRdepth : forestDepth tree.Childs ≤ 2 * R) :
    GenerateLayerParts Execute2 Sub ShorterThan fuel polygons
        = some (some { parts := referenceWalk R tree.Childs }, true)
    ∧ ∀ outer inner : clipper.Path, tree.Childs = [.mk outer [.mk inner []]] →
        GenerateLayerParts Execute2 Sub ShorterThan fuel polygons
          = some (some { parts :=
              [{ outline := microPath outer, holes := [microPath inner] }] }, true) := by
  refine ⟨GenerateLayerParts_of_ok Execute2 Sub ShorterThan polygons fuel R tree hexec hfuel
    hdepth hR hRdepth, ?_⟩
  intro outer inner hforest
  have hd : forestDepth tree.Childs = 2 := by
    rw [hforest]; simp [forestDepth, nodeDepth]
  rw [GenerateLayerParts_of_ok Execute2 Sub ShorterThan polygons fuel 1 tree hexec hfuel
    hdepth (le_refl 1) (by omega), hforest, referenceWalk_succ]
  simp [referenceWalk, partOfNode, clipper.PolyNode.Contour, clipper.PolyNode.Childs]

/-- Witness of C1: the two concentric squares, one round of fuel. -/
theorem GenerateLayerParts_eq_referenceWalk_witness :
    GenerateLayerParts demo.unionSquares demo.Sub demo.ShorterThan 1 demo.squares
      = some (some { parts :=
          [{ outline := microPath demo.outerSquare
             holes := [microPath demo.innerSquare] }] }, true) :=
  (GenerateLayerParts_eq_referenceWalk demo.unionSquares demo.Sub demo.ShorterThan
    demo.squares 1 1 demo.squaresTree rfl (by decide) (by decide) (by decide) (by decide)).2
    demo.outerSquare demo.innerSquare rfl

/-- C2: `GenerateLayerParts` returns `ok = false` exactly when `Execute2` reports failure.
On failure the result is `(nil, false)` whatever the fuel; on success, with fuel for the
rounds, the result is a partitioned layer with `ok = true`; and whenever the call returns,
`ok = false` holds only on engine failure and then the layer is nil. -/
theorem GenerateLayerParts_ok_iff (Execute2 : Execute2Fn) (Sub : SubFn)
    (ShorterThan : ShorterThanFn) (polygons : data.Paths) (fuel : Nat) :
    ((Execute2 .CtUnion .PftEvenOdd .PftEvenOdd (buildPolyList Sub ShorterThan polygons)).2
        = false →
      GenerateLayerParts Execute2 Sub ShorterThan fuel polygons = some (none, false))
    ∧ ((Execute2 .CtUnion .PftEvenOdd .PftEvenOdd (buildPolyList Sub ShorterThan polygons)).2
        = true → 1 ≤ fuel →
      forestDepth (Execute2 .CtUnion .PftEvenOdd .PftEvenOdd
        (buildPolyList Sub ShorterThan polygons)).1.Childs ≤ 2 * fuel →
      ∃ layer, GenerateLayerParts Execute2 Sub ShorterThan fuel polygons
        = some (some layer, true))
    ∧ ∀ res ok, GenerateLayerParts Execute2 Sub ShorterThan fuel polygons = some (res, ok) →
        (ok = false ↔
          (Execute2 .CtUnion .PftEvenOdd .PftEvenOdd
            (buildPolyList Sub ShorterThan polygons)).2 = false)
        ∧ (ok = false → res = none) ∧ (ok = true → res ≠ none) := by
  refine ⟨?_, ?_, ?_⟩
  · intro h
    simp [GenerateLayerParts, h]
  · intro h hfuel hdepth
    exact ⟨_, GenerateLayerParts_of_ok Execute2 Sub ShorterThan polygons fuel fuel
      _ (Prod.ext rfl h) hfuel hdepth hfuel hdepth⟩
  · intro res ok hres
    cases h : (Execute2 .CtUnion .PftEvenOdd .PftEvenOdd
        (buildPolyList Sub ShorterThan polygons)).2 with
    | false =>
      simp [GenerateLayerParts, h] at hres
      simp [← hres.1, ← hres.2]
    | true =>
      simp only [GenerateLayerParts, h, Bool.not_true, Bool.false_eq_true, if_false,
        Option.map_eq_some'] at hres
      obtain ⟨parts, -, hp⟩ := hres
      have h1 := congrArg Prod.fst hp
      have h2 := congrArg Prod.snd hp
      simp only at h1 h2
      simp [← h1, ← h2]

/-- Witness of C2: a failing union gives `(nil, false)` even without fuel. -/
theorem GenerateLayerParts_ok_iff_witness :
    GenerateLayerParts demo.unionFails demo.Sub demo.ShorterThan 0 demo.squares
      = some (none, false) :=
  (GenerateLayerParts_ok_iff demo.unionFails demo.Sub demo.ShorterThan demo.squares 0).1 rfl

end clip

/-! ## Triangle dispatch -/

namespace slicer

theorem fileSegment_of_none (SliceFace : SliceFaceFn) (i : Nat) (z : Micrometer)
    (points : FacePoints) (l : layer) (h : sliceCase z points = none) :
    fileSegment SliceFace i z points l = l := by
  simp [fileSegment, h]

theorem fileSegment_of_some (SliceFace : SliceFaceFn) (i : Nat) (z : Micrometer)
    (points : FacePoints) (l : layer) (a b c : MicroVec3)
    (h : sliceCase z points = some (a, b, c)) :
    fileSegment SliceFace i z points l = addSegment l i (SliceFace z a b c) := by
  simp [fileSegment, h]

theorem layerStep_of_tested (SliceFace : SliceFaceFn) (initialThickness layerThickness : Micrometer)
    (i : Nat) (points : FacePoints) (layers : List (Option layer)) (layerNr : Int)
    (h : Tested initialThickness layerThickness points layers layerNr) :
    layerStep SliceFace initialThickness layerThickness i points layers layerNr
      = some (layers.set layerNr.toNat
          (some (fileSegment SliceFace i (layerNr * layerThickness + initialThickness) points
            (layerAt layers layerNr.toNat)))) := by
  obtain ⟨h1, h2, h3⟩ := h
  simp only [layerStep, h1, h2, h3, if_false, if_true]

theorem sliceCase_eq_none_of_count (z : Micrometer) (points : FacePoints)
    (h : belowCount z points = 0 ∨ belowCount z points = 3) : sliceCase z points = none := by
  have key : (¬ points.p0.Z < z ∧ ¬ points.p1.Z < z ∧ ¬ points.p2.Z < z)
      ∨ (points.p0.Z < z ∧ points.p1.Z < z ∧ points.p2.Z < z) := by
    unfold belowCount at h
    by_cases h0 : points.p0.Z < z <;> by_cases h1 : points.p1.Z < z <;>
      by_cases h2 : points.p2.Z < z <;> simp [h0, h1, h2] at h ⊢
  unfold sliceCase
  rcases key with ⟨h0, h1, h2⟩ | ⟨h0, h1, h2⟩
  · rw [if_neg (fun h => h0 h.1), if_neg (fun h => h1 h.2.1), if_neg (fun h => h1 h.1),
      if_neg (fun h => h0 h.2.1), if_neg (fun h => h2 h.1), if_neg (fun h => h1 h.2.1)]
  · rw [if_neg (fun h => absurd h1 (not_lt.mpr h.2.1)),
      if_neg (fun h => absurd h0 (not_lt.mpr (le_of_lt h.1))),
      if_neg (fun h => absurd h0 (not_lt.mpr h.2.1)),
      if_neg (fun h => absurd h1 (not_lt.mpr (le_of_lt h.1))),
      if_neg (fun h => absurd h1 (not_lt.mpr h.2.1)),
      if_neg (fun h => absurd h2 (not_lt.mpr (le_of_lt h.1)))]

/-- C3: when zero or three vertices of a face are strictly below the height `z` of a layer
at which the face is tested (in particular when all three are exactly at `z`), the
dispatch takes the `default` case: the step stores the layer as it was, or the new empty
layer if there was none, so no segment is appended and the face gets no index entry. -/
theorem no_segment_of_zero_or_three_below (SliceFace : SliceFaceFn)
    (initialThickness layerThickness : Micrometer) (i : Nat) (points : FacePoints)
    (layers : List (Option layer)) (layerNr : Int)
    (htested : Tested initialThickness layerThickness points layers layerNr)
    (hcount : belowCount (layerNr * layerThickness + initialThickness) points = 0
      ∨ belowCount (layerNr * layerThickness + initialThickness) points = 3
      ∨ (points.p0.Z = layerNr * layerThickness + initialThickness
          ∧ points.p1.Z = layerNr * layerThickness + initialThickness
          ∧ points.p2.Z = layerNr * layerThickness + initialThickness)) :
    sliceCase (layerNr * layerThickness + initialThickness) points = none
    ∧ layerStep SliceFace initialThickness layerThickness i points layers layerNr
        = some (layers.set layerNr.toNat (some (layerAt layers layerNr.toNat)))
    ∧ (fileSegment SliceFace i (layerNr * layerThickness + initialThickness) points
        (layerAt layers layerNr.toNat)).segments = (layerAt layers layerNr.toNat).segments
    ∧ (fileSegment SliceFace i (layerNr * layerThickness + initialThickness) points
        (layerAt layers layerNr.toNat)).faceToSegmentIndex
          = (layerAt layers layerNr.toNat).faceToSegmentIndex := by
  have hc : belowCount (layerNr * layerThickness + initialThickness) points = 0
      ∨ belowCount (layerNr * layerThickness + initialThickness) points = 3 := by
    rcases hcount with h | h | ⟨h0, h1, h2⟩
    · exact Or.inl h
    · exact Or.inr h
    · left
      simp [belowCount, h0, h1, h2]
  have hnone := sliceCase_eq_none_of_count _ points hc
  rw [layerStep_of_tested _ _ _ _ _ _ _ htested, fileSegment_of_none _ _ _ _ _ hnone]
  exact ⟨hnone, rfl, rfl, rfl⟩

/-- Witness of C3: a face lying in the plane of layer 0 at height 100. -/
theorem no_segment_of_zero_or_three_below_witness :
    layerStep demo.SliceFace 100 100 0 demo.faceFlat [none] 0 = some [some (NewLayer 0)] :=
  (no_segment_of_zero_or_three_below demo.SliceFace 100 100 0 demo.faceFlat [none] 0
    (by decide) (by decide)).2.1

/-- C4: when exactly one vertex of a face is strictly below the height `z` of a layer at
which the face is tested, the step appends exactly one segment to that layer: the result
of `SliceFace` called with `z`, the below vertex first and the other two vertices as the
remaining arguments, stamped with the face index and a cleared flag. -/
theorem one_below_files_SliceFace (SliceFace : SliceFaceFn)
    (initialThickness layerThickness : Micrometer) (i : Nat) (points : FacePoints)
    (layers : List (Option layer)) (layerNr : Int)
    (htested : Tested initialThickness layerThickness points layers layerNr)
    (hone : belowCount (layerNr * layerThickness + initialThickness) points = 1) :
    ∃ a b c : MicroVec3,
      List.Perm [a, b, c] [points.p0, points.p1, points.p2]
      ∧ a.Z < layerNr * layerThickness + initialThickness
      ∧ layerNr * layerThickness + initialThickness ≤ b.Z
      ∧ layerNr * layerThickness + initialThickness ≤ c.Z
      ∧ sliceCase (layerNr * layerThickness + initialThickness) points = some (a, b, c)
      ∧ layerStep SliceFace initialThickness layerThickness i points layers layerNr
          = some (layers.set layerNr.toNat (some (addSegment (layerAt layers layerNr.toNat) i
              (SliceFace (layerNr * layerThickness + initialThickness) a b c))))
      ∧ (addSegment (layerAt layers layerNr.toNat) i
          (SliceFace (layerNr * layerThickness + initialThickness) a b c)).segments
          = (layerAt layers layerNr.toNat).segments
            ++ [{ SliceFace (layerNr * layerThickness + initialThickness) a b c with
                  faceIndex := i, addedToPolygon := false }] := by
  rw [layerStep_of_tested _ _ _ _ _ _ _ htested]
  generalize layerNr * layerThickness + initialThickness = z at hone ⊢
  unfold belowCount at hone
  by_cases h0 : points.p0.Z < z
  · have h1 : ¬ points.p1.Z < z := by intro h; simp [h0, h] at hone; omega
    have h2 : ¬ points.p2.Z < z := by intro h; simp [h0, h] at hone
    have hs : sliceCase z points = some (points.p0, points.p2, points.p1) := by
      unfold sliceCase; rw [if_pos ⟨h0, not_lt.mp h1, not_lt.mp h2⟩]
    refine ⟨points.p0, points.p2, points.p1, ?_, h0, not_lt.mp h2, not_lt.mp h1, hs, ?_, rfl⟩
    · exact List.Perm.cons _ (List.Perm.swap _ _ _)
    · rw [fileSegment_of_some _ _ _ _ _ _ _ _ hs]
  · by_cases h1 : points.p1.Z < z
    · have h2 : ¬ points.p2.Z < z := by intro h; simp [h0, h1, h] at hone
      have hs : sliceCase z points = some (points.p1, points.p0, points.p2) := by
        unfold sliceCase
        rw [if_neg (fun h => h0 h.1), if_neg (fun h => h2 h.2.2),
          if_pos ⟨h1, not_lt.mp h0, not_lt.mp h2⟩]
      refine ⟨points.p1, points.p0, points.p2, ?_, h1, not_lt.mp h0, not_lt.mp h2, hs, ?_, rfl⟩
      · exact List.Perm.swap _ _ _
      · rw [fileSegment_of_some _ _ _ _ _ _ _ _ hs]
    · have h2 : points.p2.Z < z := by
        by_contra h; simp [h0, h1, h] at hone
      have hs : sliceCase z points = some (points.p2, points.p1, points.p0) := by
        unfold sliceCase
        rw [if_neg (fun h => h0 h.1), if_neg (fun h => h1 h.2.1), if_neg (fun h => h1 h.1),
          if_neg (fun h => h0 h.2.1), if_pos ⟨h2, not_lt.mp h1, not_lt.mp h0⟩]
      refine ⟨points.p2, points.p1, points.p0, ?_, h2, not_lt.mp h1, not_lt.mp h0, hs, ?_, rfl⟩
      · exact (List.Perm.swap _ _ _).trans
          ((List.Perm.cons _ (List.Perm.swap _ _ _)).trans (List.Perm.swap _ _ _))
      · rw [fileSegment_of_some _ _ _ _ _ _ _ _ hs]

/-- Witness of C4: the face with one vertex at height 0 tested at layer 0 of height 100. -/
theorem one_below_files_SliceFace_witness :
    ∃ a b c : MicroVec3,
      List.Perm [a, b, c] [demo.faceOneLow.p0, demo.faceOneLow.p1, demo.faceOneLow.p2]
      ∧ a.Z < 0 * 100 + 100 ∧ 0 * 100 + 100 ≤ b.Z ∧ 0 * 100 + 100 ≤ c.Z
      ∧ sliceCase (0 * 100 + 100) demo.faceOneLow = some (a, b, c)
      ∧ layerStep demo.SliceFace 100 100 0 demo.faceOneLow [none] 0
          = some ([none].set (0 : Int).toNat (some (addSegment (layerAt [none] (0 : Int).toNat) 0
              (demo.SliceFace (0 * 100 + 100) a b c))))
      ∧ (addSegment (layerAt [none] (0 : Int).toNat) 0
          (demo.SliceFace (0 * 100 + 100) a b c)).segments
          = (layerAt [none] (0 : Int).toNat).segments
            ++ [{ demo.SliceFace (0 * 100 + 100) a b c with
                  faceIndex := 0, addedToPolygon := false }] :=
  one_below_files_SliceFace demo.SliceFace 100 100 0 demo.faceOneLow [none] 0
    (by decide) (by decide)

end slicer

namespace slicer

theorem int_trichotomy_facts (x z : Int) :
    (x < z ∧ ¬ z ≤ x ∧ ¬ z < x) ∨ (¬ x < z ∧ z ≤ x ∧ ¬ z < x) ∨ (¬ x < z ∧ z ≤ x ∧ z < x) := by
  omega

theorem sliceCase_rotate (z : Micrometer) (p0 p1 p2 : MicroVec3) :
    sliceCase z { p0 := p1, p1 := p2, p2 := p0 }
      = sliceCase z { p0 := p0, p1 := p1, p2 := p2 } := by
  rcases int_trichotomy_facts p0.Z z with ⟨a0, b0, c0⟩ | ⟨a0, b0, c0⟩ | ⟨a0, b0, c0⟩ <;>
  rcases int_trichotomy_facts p1.Z z with ⟨a1, b1, c1⟩ | ⟨a1, b1, c1⟩ | ⟨a1, b1, c1⟩ <;>
  rcases int_trichotomy_facts p2.Z z with ⟨a2, b2, c2⟩ | ⟨a2, b2, c2⟩ | ⟨a2, b2, c2⟩ <;>
  simp [sliceCase, a0, b0, c0, a1, b1, c1, a2, b2, c2]

theorem sliceCase_swap12 (z : Micrometer) (p0 p1 p2 : MicroVec3) :
    sliceCase z { p0 := p0, p1 := p2, p2 := p1 }
      = (sliceCase z { p0 := p0, p1 := p1, p2 := p2 }).map
          (fun abc => (abc.1, abc.2.2, abc.2.1)) := by
  rcases int_trichotomy_facts p0.Z z with ⟨a0, b0, c0⟩ | ⟨a0, b0, c0⟩ | ⟨a0, b0, c0⟩ <;>
  rcases int_trichotomy_facts p1.Z z with ⟨a1, b1, c1⟩ | ⟨a1, b1, c1⟩ | ⟨a1, b1, c1⟩ <;>
  rcases int_trichotomy_facts p2.Z z with ⟨a2, b2, c2⟩ | ⟨a2, b2, c2⟩ | ⟨a2, b2, c2⟩ <;>
  simp [sliceCase, a0, b0, c0, a1, b1, c1, a2, b2, c2]

/-- C5 fails as stated: the face `faceTouching` has exactly two vertices strictly below
the height 100 of layer 0 and its third vertex exactly at that height; it is tested at
that layer, and no segment is appended. -/
theorem two_below_touching_no_segment :
    belowCount (0 * 100 + 100) demo.faceTouching = 2
    ∧ (0 : Int) * 100 + 100 ≤ demo.faceTouching.p0.Z
    ∧ Tested 100 100 demo.faceTouching [none] 0
    ∧ layerStep demo.SliceFace 100 100 0 demo.faceTouching [none] 0 = some [some (NewLayer 0)]
    ∧ (NewLayer 0).segments = []
    ∧ NewSlicer demo.SliceFace demo.modelTouching 100 100
        = some { modelSize := demo.modelTouching.Size, layers := [some (NewLayer 0)] } := by
  decide

/-- C5, amended: when exactly two vertices of a face are strictly below the height `z` of
a layer at which the face is tested, the third vertex `a` is at or above `z`; if it is
strictly above `z`, the step appends exactly one segment, the result of `SliceFace` with
`a` as first vertex argument, and if it is exactly at `z` no segment is appended. -/
theorem two_below_files_SliceFace (SliceFace : SliceFaceFn)
    (initialThickness layerThickness : Micrometer) (i : Nat) (points : FacePoints)
    (layers : List (Option layer)) (layerNr : Int)
    (htested : Tested initialThickness layerThickness points layers layerNr)
    (htwo : belowCount (layerNr * layerThickness + initialThickness) points = 2) :
    ∃ a b c : MicroVec3,
      List.Perm [a, b, c] [points.p0, points.p1, points.p2]
      ∧ layerNr * layerThickness + initialThickness ≤ a.Z
      ∧ b.Z < layerNr * layerThickness + initialThickness
      ∧ c.Z < layerNr * layerThickness + initialThickness
      ∧ (layerNr * layerThickness + initialThickness < a.Z →
          sliceCase (layerNr * layerThickness + initialThickness) points = some (a, b, c)
          ∧ layerStep SliceFace initialThickness layerThickness i points layers layerNr
            = some (layers.set layerNr.toNat (some (addSegment (layerAt layers layerNr.toNat) i
                (SliceFace (layerNr * layerThickness + initialThickness) a b c))))
          ∧ (addSegment (layerAt layers layerNr.toNat) i
              (SliceFace (layerNr * layerThickness + initialThickness) a b c)).segments
            = (layerAt layers layerNr.toNat).segments
              ++ [{ SliceFace (layerNr * layerThickness + initialThickness) a b c with
                    faceIndex := i, addedToPolygon := false }])
      ∧ (a.Z = layerNr * layerThickness + initialThickness →
          sliceCase (layerNr * layerThickness + initialThickness) points = none
          ∧ layerStep SliceFace initialThickness layerThickness i points layers layerNr
            = some (layers.set layerNr.toNat (some (layerAt layers layerNr.toNat)))) := by
  rw [layerStep_of_tested _ _ _ _ _ _ _ htested]
  generalize layerNr * layerThickness + initialThickness = z at htwo ⊢
  unfold belowCount at htwo
  rcases int_trichotomy_facts points.p0.Z z with ⟨a0, b0, c0⟩ | ⟨a0, b0, c0⟩ | ⟨a0, b0, c0⟩ <;>
  rcases int_trichotomy_facts points.p1.Z z with ⟨a1, b1, c1⟩ | ⟨a1, b1, c1⟩ | ⟨a1, b1, c1⟩ <;>
  rcases int_trichotomy_facts points.p2.Z z with ⟨a2, b2, c2⟩ | ⟨a2, b2, c2⟩ | ⟨a2, b2, c2⟩ <;>
  simp only [a0, a1, a2, if_true, if_false] at htwo <;>
  first
  | exact absurd htwo (by decide)
  | (refine ⟨points.p0, points.p1, points.p2, List.Perm.refl _, b0, a1, a2, ?_, ?_⟩ <;>
      intro hz <;>
      first
      | (exfalso; (try simp only [Micrometer] at *); omega)
      | simp [fileSegment, sliceCase, addSegment, a0, b0, c0, a1, b1, c1, a2, b2, c2])
  | (refine ⟨points.p1, points.p2, points.p0,
        (List.Perm.cons _ (List.Perm.swap _ _ _)).trans (List.Perm.swap _ _ _),
        b1, a2, a0, ?_, ?_⟩ <;>
      intro hz <;>
      first
      | (exfalso; (try simp only [Micrometer] at *); omega)
      | simp [fileSegment, sliceCase, addSegment, a0, b0, c0, a1, b1, c1, a2, b2, c2])
  | (refine ⟨points.p2, points.p0, points.p1,
        (List.Perm.swap _ _ _).trans (List.Perm.cons _ (List.Perm.swap _ _ _)),
        b2, a0, a1, ?_, ?_⟩ <;>
      intro hz <;>
      first
      | (exfalso; (try simp only [Micrometer] at *); omega)
      | simp [fileSegment, sliceCase, addSegment, a0, b0, c0, a1, b1, c1, a2, b2, c2])

end slicer

namespace slicer

/-- Witness of the amended C5: the face with two vertices at height 0 and one at height
200, tested at layer 0 of height 100. -/
theorem two_below_files_SliceFace_witness :
    ∃ a b c : MicroVec3,
      List.Perm [a, b, c] [demo.faceTwoLow.p0, demo.faceTwoLow.p1, demo.faceTwoLow.p2]
      ∧ 0 * 100 + 100 ≤ a.Z ∧ b.Z < 0 * 100 + 100 ∧ c.Z < 0 * 100 + 100
      ∧ (0 * 100 + 100 < a.Z →
          sliceCase (0 * 100 + 100) demo.faceTwoLow = some (a, b, c)
          ∧ layerStep demo.SliceFace 100 100 1 demo.faceTwoLow [none] 0
            = some ([none].set (0 : Int).toNat
                (some (addSegment (layerAt [none] (0 : Int).toNat) 1
                  (demo.SliceFace (0 * 100 + 100) a b c))))
          ∧ (addSegment (layerAt [none] (0 : Int).toNat) 1
              (demo.SliceFace (0 * 100 + 100) a b c)).segments
            = (layerAt [none] (0 : Int).toNat).segments
              ++ [{ demo.SliceFace (0 * 100 + 100) a b c with
                    faceIndex := 1, addedToPolygon := false }])
      ∧ (a.Z = 0 * 100 + 100 →
          sliceCase (0 * 100 + 100) demo.faceTwoLow = none
          ∧ layerStep demo.SliceFace 100 100 1 demo.faceTwoLow [none] 0
            = some ([none].set (0 : Int).toNat (some (layerAt [none] (0 : Int).toNat)))) :=
  two_below_files_SliceFace demo.SliceFace 100 100 1 demo.faceTwoLow [none] 0
    (by decide) (by decide)

/-- C6: the case dispatch of `NewSlicer` is equivariant under reordering of the vertices.
Both cyclic rotations of a face give the same outcome as the face itself (no segment, or
the same `SliceFace` arguments in the same order, hence the same filed segment); each of
the three transpositions gives no segment exactly when the face gives none, and otherwise
the same first vertex argument with the last two exchanged. -/
theorem sliceCase_equivariant (z : Micrometer) (p0 p1 p2 : MicroVec3)
    (SliceFace : SliceFaceFn) (i : Nat) (l : layer) :
    sliceCase z { p0 := p1, p1 := p2, p2 := p0 } = sliceCase z { p0 := p0, p1 := p1, p2 := p2 }
    ∧ sliceCase z { p0 := p2, p1 := p0, p2 := p1 }
        = sliceCase z { p0 := p0, p1 := p1, p2 := p2 }
    ∧ fileSegment SliceFace i z { p0 := p1, p1 := p2, p2 := p0 } l
        = fileSegment SliceFace i z { p0 := p0, p1 := p1, p2 := p2 } l
    ∧ fileSegment SliceFace i z { p0 := p2, p1 := p0, p2 := p1 } l
        = fileSegment SliceFace i z { p0 := p0, p1 := p1, p2 := p2 } l
    ∧ sliceCase z { p0 := p0, p1 := p2, p2 := p1 }
        = (sliceCase z { p0 := p0, p1 := p1, p2 := p2 }).map
            (fun abc => (abc.1, abc.2.2, abc.2.1))
    ∧ sliceCase z { p0 := p1, p1 := p0, p2 := p2 }
        = (sliceCase z { p0 := p0, p1 := p1, p2 := p2 }).map
            (fun abc => (abc.1, abc.2.2, abc.2.1))
    ∧ sliceCase z { p0 := p2, p1 := p1, p2 := p0 }
        = (sliceCase z { p0 := p0, p1 := p1, p2 := p2 }).map
            (fun abc => (abc.1, abc.2.2, abc.2.1))
    ∧ (sliceCase z { p0 := p0, p1 := p2, p2 := p1 }).isNone
        = (sliceCase z { p0 := p0, p1 := p1, p2 := p2 }).isNone
    ∧ (sliceCase z { p0 := p1, p1 := p0, p2 := p2 }).isNone
        = (sliceCase z { p0 := p0, p1 := p1, p2 := p2 }).isNone
    ∧ (sliceCase z { p0 := p2, p1 := p1, p2 := p0 }).isNone
        = (sliceCase z { p0 := p0, p1 := p1, p2 := p2 }).isNone := by
  have r1 := sliceCase_rotate z p0 p1 p2
  have r2 : sliceCase z { p0 := p2, p1 := p0, p2 := p1 }
      = sliceCase z { p0 := p0, p1 := p1, p2 := p2 } := by
    exact (sliceCase_rotate z p2 p0 p1).symm
  have s1 := sliceCase_swap12 z p0 p1 p2
  have s2 : sliceCase z { p0 := p1, p1 := p0, p2 := p2 }
      = (sliceCase z { p0 := p0, p1 := p1, p2 := p2 }).map
          (fun abc => (abc.1, abc.2.2, abc.2.1)) := by
    exact (sliceCase_rotate z p1 p0 p2).symm.trans s1
  have s3 : sliceCase z { p0 := p2, p1 := p1, p2 := p0 }
      = (sliceCase z { p0 := p0, p1 := p1, p2 := p2 }).map
          (fun abc => (abc.1, abc.2.2, abc.2.1)) := by
    exact (sliceCase_rotate z p0 p2 p1).trans s1
  refine ⟨r1, r2, ?_, ?_, s1, s2, s3, ?_, ?_, ?_⟩
  · simp only [fileSegment, r1]
  · simp only [fileSegment, r2]
  · rw [s1]; simp
  · rw [s2]; simp
  · rw [s3]; simp

end slicer

/-! ## Wall insets -/

namespace clip

theorem microPaths_length (Simplify : SimplifyFn) (p : clipper.Paths) (simplify : Bool) :
    (microPaths Simplify p simplify).length = p.length := by
  unfold microPaths
  rw [foldl_snoc_eq_map (fun path => Simplify
    (if simplify then Simplify (microPath path) (-1) (-1) else microPath path) (-1) (-1)) p []]
  simp

theorem firstEmptyBelow_le (r : Nat → clipper.Paths) (n : Nat) : firstEmptyBelow r n ≤ n := by
  unfold firstEmptyBelow
  cases h : (List.range n).find? (fun i => (r i).isEmpty) with
  | none => simp
  | some i =>
    have := List.mem_of_find?_eq_some h
    simp only [List.mem_range] at this
    simp only [Option.getD_some]; omega

theorem firstEmptyBelow_succ (r : Nat → clipper.Paths) (n : Nat) :
    firstEmptyBelow r (n + 1)
      = if firstEmptyBelow r n < n then firstEmptyBelow r n
        else if (r n).isEmpty then n else n + 1 := by
  unfold firstEmptyBelow
  rw [List.range_succ, List.find?_append]
  cases h : (List.range n).find? (fun i => (r i).isEmpty) with
  | some i =>
    have := List.mem_of_find?_eq_some h
    simp only [List.mem_range] at this
    simp [this]
  | none =>
    by_cases hr : (r n).isEmpty = true
    · simp [hr]
    · simp [hr]

theorem firstEmptyBelow_nonempty (r : Nat → clipper.Paths) (n j : Nat)
    (hj : j < firstEmptyBelow r n) : r j ≠ [] := by
  induction n with
  | zero => simp [firstEmptyBelow] at hj
  | succ n ih =>
    rw [firstEmptyBelow_succ] at hj
    have hle := firstEmptyBelow_le r n
    split_ifs at hj with h1 h2
    · exact ih hj
    · exact ih (by omega)
    · by_cases hjn : j = n
      · subst hjn
        intro h; simp [h] at h2
      · exact ih (by omega)

theorem firstEmptyBelow_empty (r : Nat → clipper.Paths) (n : Nat)
    (h : firstEmptyBelow r n < n) : r (firstEmptyBelow r n) = [] := by
  induction n with
  | zero => omega
  | succ n ih =>
    rw [firstEmptyBelow_succ] at h ⊢
    split_ifs at h ⊢ with h1 h2
    · exact ih h1
    · simpa using h2
    · omega

theorem insetLoop_range (Execute : OffsetExecuteFn) (Simplify : SimplifyFn) (part : layerPart)
    (offset : Micrometer) (n : Nat) :
    (List.range n).foldl (insetStep Execute Simplify part offset)
        { insets := [], insetsFinished := false, executed := [] }
      = { insets := (List.range (firstEmptyBelow (ring Execute part offset) n)).map
            (fun j => microPaths Simplify (ring Execute part offset j) true)
          insetsFinished := decide (firstEmptyBelow (ring Execute part offset) n < n)
          executed := (List.range (min n (firstEmptyBelow (ring Execute part offset) n + 1))).map
            (fun j => (j, offsetRequest part offset j)) } := by
  induction n with
  | zero => simp [firstEmptyBelow]
  | succ n ih =>
    rw [List.range_succ, List.foldl_append, ih, firstEmptyBelow_succ]
    have hle := firstEmptyBelow_le (ring Execute part offset) n
    simp only [List.foldl_cons, List.foldl_nil]
    by_cases hfin : firstEmptyBelow (ring Execute part offset) n < n
    · have h1 : min n (firstEmptyBelow (ring Execute part offset) n + 1)
          = firstEmptyBelow (ring Execute part offset) n + 1 := by omega
      have h2 : min (n + 1) (firstEmptyBelow (ring Execute part offset) n + 1)
          = firstEmptyBelow (ring Execute part offset) n + 1 := by omega
      have h3 : firstEmptyBelow (ring Execute part offset) n < n + 1 := by omega
      simp [insetStep, hfin, h1, h2, h3]
    · have hk : firstEmptyBelow (ring Execute part offset) n = n := by omega
      by_cases hr : (ring Execute part offset n).isEmpty = true
      · have hr' : ring Execute part offset n = [] := by simpa using hr
        have hr'' : Execute (offsetRequest part offset n) = [] := hr'
        simp [insetStep, hk, hr, hr'', List.range_succ]
      · have hr' : ring Execute part offset n ≠ [] := by simpa using hr
        have hr'' : Execute (offsetRequest part offset n) ≠ [] := hr'
        have hpos : 0 < (Execute (offsetRequest part offset n)).length :=
          List.length_pos.mpr hr''
        have hnle : ¬ (Execute (offsetRequest part offset n)).length ≤ 0 := by omega
        simp [insetStep, hk, hr, hr'', hnle, List.range_succ, ring]

end clip

namespace clip

/-- C7: with `ring i` the engine result for ring index `i` and `k` the first empty ring
below `N` (`N` if there is none, 0 if `N ≤ 0`), `Inset` returns exactly `k` rings, the
`j`-th being the converted `ring j`; so it returns at most `N` rings, none of them empty,
every ring before `k` is non-empty at the engine, and ring `k` itself is empty whenever
`k` is a ring index below `N`. -/
theorem Inset_eq_rings_before_first_empty (Execute : OffsetExecuteFn) (Simplify : SimplifyFn)
    (part : layerPart) (offset : Micrometer) (N : Int) :
    Inset Execute Simplify part offset N
        = (List.range (firstEmptyRing Execute part offset N)).map
            (fun j => microPaths Simplify (ring Execute part offset j) true)
    ∧ (Inset Execute Simplify part offset N).length = firstEmptyRing Execute part offset N
    ∧ ((firstEmptyRing Execute part offset N : Nat) : Int) ≤ max N 0
    ∧ (∀ j, j < firstEmptyRing Execute part offset N → ring Execute part offset j ≠ [])
    ∧ (((firstEmptyRing Execute part offset N : Nat) : Int) < N →
        ring Execute part offset (firstEmptyRing Execute part offset N) = [])
    ∧ (∀ paths ∈ Inset Execute Simplify part offset N, paths ≠ [])
    ∧ (N ≤ 0 → Inset Execute Simplify part offset N = []) := by
  have hmain : Inset Execute Simplify part offset N
        = (List.range (firstEmptyRing Execute part offset N)).map
            (fun j => microPaths Simplify (ring Execute part offset j) true) := by
    simp only [Inset, insetLoop, insetLoop_range, firstEmptyRing]
  have hle := firstEmptyBelow_le (ring Execute part offset) N.toNat
  have hne : ∀ j, j < firstEmptyRing Execute part offset N → ring Execute part offset j ≠ [] :=
    fun j hj => firstEmptyBelow_nonempty (ring Execute part offset) N.toNat j hj
  refine ⟨hmain, ?_, ?_, hne, ?_, ?_, ?_⟩
  · rw [hmain]; simp
  · simp only [firstEmptyRing]; omega
  · intro hlt
    exact firstEmptyBelow_empty (ring Execute part offset) N.toNat
      (by simp only [firstEmptyRing] at hlt; omega)
  · intro paths hmem
    rw [hmain] at hmem
    simp only [List.mem_map, List.mem_range] at hmem
    obtain ⟨j, hj, rfl⟩ := hmem
    intro hnil
    have hlen := microPaths_length Simplify (ring Execute part offset j) true
    rw [hnil] at hlen
    exact hne j hj (List.length_eq_zero.mp hlen.symm)
  · intro hN
    rw [hmain]
    have : firstEmptyRing Execute part offset N = 0 := by
      simp only [firstEmptyRing]; omega
    simp [this]

end clip

namespace clip

set_option maxRecDepth 100000 in
/-- Witness of C7: the 1000 square with pitch 400 and ten rings; the first empty ring is
ring 1 and it is empty at the engine. -/
theorem Inset_eq_rings_before_first_empty_witness :
    ring demo.offsetSquare demo.squarePart 400
      (firstEmptyRing demo.offsetSquare demo.squarePart 400 10) = [] :=
  (Inset_eq_rings_before_first_empty demo.offsetSquare demo.Simplify demo.squarePart 400
    10).2.2.2.2.1 (by decide)

theorem clipperPaths_eq_map (p : data.Paths) :
    clipperPaths p = p.map (fun path => path.map clipperPoint) := by
  unfold clipperPaths
  have h : ∀ path : data.Path,
      path.foldl (fun newPath point => newPath ++ [clipperPoint point]) []
        = path.map clipperPoint := by
    intro path
    simpa using foldl_snoc_eq_map clipperPoint path []
  simp only [h]
  simpa using foldl_snoc_eq_map (fun path : data.Path => path.map clipperPoint) p []

theorem InsetExecuted_eq (Execute : OffsetExecuteFn) (Simplify : SimplifyFn)
    (part : layerPart) (offset : Micrometer) (N : Int) :
    InsetExecuted Execute Simplify part offset N
      = (List.range (min N.toNat (firstEmptyRing Execute part offset N + 1))).map
          (fun j => (j, offsetRequest part offset j)) := by
  simp only [InsetExecuted, insetLoop, insetLoop_range, firstEmptyRing]

theorem wrap64_of_range (x : Int) (h1 : -2 ^ 63 ≤ x) (h2 : x < 2 ^ 63) : wrap64 x = x := by
  unfold wrap64
  omega

theorem f64Shift_eq_zero (fuel n : Nat) (h : n < 2 ^ 53) : f64Shift fuel n = 0 := by
  cases fuel with
  | zero => rfl
  | succ k => rw [f64Shift, if_pos h]

theorem roundF64Nat_exact (n : Nat) (h : n < 2 ^ 53) : roundF64Nat n = n := by
  unfold roundF64Nat
  rw [f64Shift_eq_zero 64 n h]
  rfl

theorem roundF64_exact (x : Int) (h1 : -2 ^ 53 < x) (h2 : x < 2 ^ 53) : roundF64 x = x := by
  unfold roundF64
  split_ifs with hneg
  · rw [roundF64Nat_exact _ (by omega)]
    omega
  · rw [roundF64Nat_exact _ (by omega)]
    omega

theorem tdiv_two_bounds (x : Int) :
    (0 ≤ x → 0 ≤ x.tdiv 2 ∧ x.tdiv 2 ≤ x) ∧ (x ≤ 0 → x ≤ x.tdiv 2 ∧ x.tdiv 2 ≤ 0) := by
  constructor
  · intro h
    rw [Int.tdiv_eq_ediv h (by omega)]
    omega
  · intro h
    have e : x.tdiv 2 = -((-x).tdiv 2) := by rw [Int.neg_tdiv]; omega
    rw [e, Int.tdiv_eq_ediv (by omega) (by omega)]
    omega

theorem offsetRequest_delta_exact (part : layerPart) (offset : Int) (i : Nat)
    (hlow : -2 ^ 53 < offset * ((i : Int) + 1)) (hhigh : offset * ((i : Int) + 1) < 2 ^ 53) :
    (offsetRequest part offset i).delta = -(offset * (i : Int)) - offset.tdiv 2 := by
  have hmul : offset * ((i : Int) + 1) = offset * (i : Int) + offset := by ring
  have hneg : -offset * (i : Int) = -(offset * (i : Int)) := by ring
  have hi : (0 : Int) ≤ (i : Int) := Int.ofNat_nonneg i
  obtain ⟨d1, d2⟩ := tdiv_two_bounds offset
  have hsign : (0 ≤ offset ∧ 0 ≤ offset * (i : Int)) ∨ (offset ≤ 0 ∧ offset * (i : Int) ≤ 0) := by
    rcases le_total 0 offset with h | h
    · exact Or.inl ⟨h, Int.mul_nonneg h hi⟩
    · exact Or.inr ⟨h, Int.mul_nonpos_of_nonpos_of_nonneg h hi⟩
  simp only [offsetRequest]
  rw [wrap64_of_range (-offset) (by omega) (by omega), hneg]
  generalize offset * (i : Int) = t at *
  generalize Int.tdiv offset 2 = d at *
  rw [wrap64_of_range (-t) (by omega) (by omega), wrap64_of_range d (by omega) (by omega),
    roundF64_exact (-t) (by omega) (by omega), roundF64_exact d (by omega) (by omega),
    roundF64_exact (-t - d) (by omega) (by omega)]

set_option maxRecDepth 100000 in
/-- C8 fails as stated.  With pitch `2^62` the engine is executed at ring index 3 with the
positive distance `2^61`: the product `-int(offset)*3` wraps in 64 bits.  With pitch
`2^54 + 2` it is executed at ring index 1 with the distance `-(2^54 + 2^53)`: both
operands are rounded by the conversion to `float64`.  The claim gives
`-(pitch*i + pitch/2)` in both cases. -/
theorem Inset_distance_wraps_and_rounds :
    (3, offsetRequest demo.squarePart (2 ^ 62) 3)
        ∈ InsetExecuted demo.offsetAlways demo.Simplify demo.squarePart (2 ^ 62) 4
    ∧ (offsetRequest demo.squarePart (2 ^ 62) 3).delta = 2 ^ 61
    ∧ (offsetRequest demo.squarePart (2 ^ 62) 3).delta
        ≠ -(2 ^ 62 * ((3 : Nat) : Int) + Int.tdiv (2 ^ 62) 2)
    ∧ (1, offsetRequest demo.squarePart (2 ^ 54 + 2) 1)
        ∈ InsetExecuted demo.offsetAlways demo.Simplify demo.squarePart (2 ^ 54 + 2) 2
    ∧ (offsetRequest demo.squarePart (2 ^ 54 + 2) 1).delta = -(2 ^ 54 + 2 ^ 53)
    ∧ (offsetRequest demo.squarePart (2 ^ 54 + 2) 1).delta
        ≠ -((2 ^ 54 + 2) * ((1 : Nat) : Int) + Int.tdiv (2 ^ 54 + 2) 2) := by
  decide

/-- C8, amended: at every ring index `i` at which `Inset` executes the offset engine, the
distance handed over is `float64(-int(offset)*i) - float64(offset/2)` in 64-bit integer
and `float64` arithmetic, `offset/2` truncated toward zero; whenever `offset*(i+1)` lies
strictly between `-2^53` and `2^53` this is exactly `-(offset*i) - offset/2
= -(offset*i + offset/2)`; and the engine holds the outline and all the holes of the
part, converted point by point, added as closed polygons with square joins. -/
theorem Inset_engine_request (Execute : OffsetExecuteFn) (Simplify : SimplifyFn)
    (part : layerPart) (offset : Micrometer) (N : Int) (i : Nat) (req : clipper.OffsetRequest)
    (hcall : (i, req) ∈ InsetExecuted Execute Simplify part offset N) :
    req = offsetRequest part offset i
    ∧ req.delta = roundF64 (roundF64 (wrap64 (wrap64 (-offset) * (i : Int)))
        - roundF64 (wrap64 (offset.tdiv 2)))
    ∧ (-2 ^ 53 < offset * ((i : Int) + 1) → offset * ((i : Int) + 1) < 2 ^ 53 →
        req.delta = -(offset * (i : Int)) - offset.tdiv 2
        ∧ req.delta = -(offset * (i : Int) + offset.tdiv 2))
    ∧ req.added.flatMap (fun g => g.1)
        = (part.Outline :: part.Holes).map (fun path => path.map clipperPoint)
    ∧ (∀ g ∈ req.added, g.2 = (clipper.JoinType.JtSquare, clipper.EndType.EtClosedPolygon))
    ∧ (i : Int) < N := by
  rw [InsetExecuted_eq] at hcall
  simp only [List.mem_map, List.mem_range, Prod.mk.injEq] at hcall
  obtain ⟨j, hj, rfl, rfl⟩ := hcall
  refine ⟨rfl, rfl, ?_, ?_, ?_, ?_⟩
  · intro hlow hhigh
    have h := offsetRequest_delta_exact part offset j hlow hhigh
    exact ⟨h, by rw [h]; ring⟩
  · simp [offsetRequest, clipperPaths_eq_map]
  · intro g hg
    simp only [offsetRequest, List.mem_cons, List.mem_singleton, List.not_mem_nil,
      or_false] at hg
    rcases hg with rfl | rfl <;> rfl
  · omega

set_option maxRecDepth 100000 in
/-- Witness of the amended C8: ring 0 of the 1000 square with pitch 401 is executed with
distance `-200`. -/
theorem Inset_engine_request_witness :
    (offsetRequest demo.squarePart 401 0).delta
        = -(401 * ((0 : Nat) : Int)) - Int.tdiv 401 2
    ∧ (offsetRequest demo.squarePart 401 0).delta
        = -(401 * ((0 : Nat) : Int) + Int.tdiv 401 2) :=
  (Inset_engine_request demo.offsetSquare demo.Simplify demo.squarePart 401 10 0
    (offsetRequest demo.squarePart 401 0) (by decide)).2.2.1 (by decide) (by decide)

/-- C9: within one call of `Inset` the engine is executed exactly `min N (k+1)` times
(`k` the first empty ring, `N` counted as 0 when negative), for the ring indices
`0, 1, ...` in increasing order, each with the request of its ring; every execution that
is followed by another one returned a non-empty result, so the engine is never executed
again after an empty result. -/
theorem Inset_executions (Execute : OffsetExecuteFn) (Simplify : SimplifyFn)
    (part : layerPart) (offset : Micrometer) (N : Int) :
    InsetExecuted Execute Simplify part offset N
        = (List.range (min N.toNat (firstEmptyRing Execute part offset N + 1))).map
            (fun j => (j, offsetRequest part offset j))
    ∧ (InsetExecuted Execute Simplify part offset N).length
        = min N.toNat (firstEmptyRing Execute part offset N + 1)
    ∧ (InsetExecuted Execute Simplify part offset N).map (fun e => e.1)
        = List.range (min N.toNat (firstEmptyRing Execute part offset N + 1))
    ∧ ∀ j e, (InsetExecuted Execute Simplify part offset N)[j]? = some e →
        j + 1 < (InsetExecuted Execute Simplify part offset N).length → Execute e.2 ≠ [] := by
  have hmain := InsetExecuted_eq Execute Simplify part offset N
  refine ⟨hmain, ?_, ?_, ?_⟩
  · rw [hmain]; simp
  · rw [hmain]; simp [Function.comp_def]
  · intro j e hget hlt
    rw [hmain] at hget hlt
    simp only [List.length_map, List.length_range] at hlt
    rw [List.getElem?_map, List.getElem?_range (by omega)] at hget
    simp only [Option.map_some', Option.some.injEq] at hget
    subst hget
    exact firstEmptyBelow_nonempty (ring Execute part offset) N.toNat j
      (by simp only [firstEmptyRing] at hlt; omega)

set_option maxRecDepth 100000 in
/-- Witness of C9: for the 1000 square with pitch 400 and ten rings, the first execution
(ring 0) is followed by a second one and returned a non-empty result. -/
theorem Inset_executions_witness :
    demo.offsetSquare (0, offsetRequest demo.squarePart 400 0).2 ≠ [] :=
  (Inset_executions demo.offsetSquare demo.Simplify demo.squarePart 400 10).2.2.2 0
    (0, offsetRequest demo.squarePart 400 0) (by decide) (by decide)

end clip

/-! ## Face-to-segment index -/

namespace slicer

/-- The invariant kept per layer by the bucketing loop. -/
theorem addSegment_inv (l : layer) (i : Nat) (seg : segment)
    (hagree : l.indexAgrees) (hkeys : l.keysBelow i) :
    (addSegment l i seg).indexAgrees ∧ (addSegment l i seg).keysBelow (i + 1) := by
  obtain ⟨h1, h2⟩ := hagree
  refine ⟨⟨?_, ?_⟩, ?_⟩
  · intro j e hje
    simp only [layer.segmentIndexOf, addSegment, List.lookup_cons] at hje ⊢
    by_cases hji : j = i
    · subst hji
      simp only [beq_self_eq_true] at hje
      cases hje
      simp
    · have hb : (j == i) = false := by simpa using hji
      simp only [hb] at hje
      have := h1 j e hje
      have hlt : e < l.segments.length := by
        by_contra hge
        rw [List.getElem?_eq_none (by omega)] at this
        simp at this
      rw [List.getElem?_append_left hlt]
      exact this
  · intro k s hks
    simp only [layer.segmentIndexOf, addSegment, List.lookup_cons] at hks ⊢
    by_cases hk : k < l.segments.length
    · rw [List.getElem?_append_left hk] at hks
      have hold := h2 k s hks
      have hne : s.faceIndex ≠ i := by
        have := hkeys _ _ hold
        omega
      have hb : (s.faceIndex == i) = false := by simpa using hne
      simp only [hb]
      exact hold
    · rw [List.getElem?_append_right (by omega)] at hks
      have hk0 : k - l.segments.length = 0 := by
        by_contra hne
        rw [List.getElem?_eq_none (by simp; omega)] at hks
        simp at hks
      rw [hk0] at hks
      simp only [List.getElem?_cons_zero, Option.some.injEq] at hks
      subst hks
      simp
      omega
  · intro j e hje
    simp only [layer.segmentIndexOf, addSegment, List.lookup_cons] at hje
    by_cases hji : j = i
    · omega
    · have hb : (j == i) = false := by simpa using hji
      simp only [hb] at hje
      have := hkeys j e hje
      omega

end slicer

namespace slicer

theorem keysBelow_mono (l : layer) (n m : Nat) (h : l.keysBelow n) (hnm : n ≤ m) :
    l.keysBelow m :=
  fun i e hie => Nat.lt_of_lt_of_le (h i e hie) hnm

theorem NewLayer_inv (number : Int) (i : Nat) :
    (NewLayer number).indexAgrees ∧ (NewLayer number).keysBelow i := by
  refine ⟨⟨?_, ?_⟩, ?_⟩
  · intro j e h; simp [layer.segmentIndexOf, NewLayer] at h
  · intro k s h; simp [NewLayer] at h
  · intro j e h; simp [layer.segmentIndexOf, NewLayer] at h

theorem fileSegment_inv (SliceFace : SliceFaceFn) (i : Nat) (z : Micrometer)
    (points : FacePoints) (l : layer) (hagree : l.indexAgrees) (hkeys : l.keysBelow i) :
    (fileSegment SliceFace i z points l).indexAgrees
      ∧ (fileSegment SliceFace i z points l).keysBelow (i + 1) := by
  unfold fileSegment
  cases sliceCase z points with
  | none => exact ⟨hagree, keysBelow_mono l i (i + 1) hkeys (Nat.le_succ i)⟩
  | some abc =>
    obtain ⟨a, b, c⟩ := abc
    exact addSegment_inv l i _ hagree hkeys

end slicer

namespace slicer

theorem layerAt_inv (layers : List (Option layer)) (i : Nat) (m : Int) (n : Nat)
    (hinv : LayersInv layers i m) (hmn : m ≤ (n : Int)) :
    (layerAt layers n).indexAgrees ∧ (layerAt layers n).keysBelow i := by
  unfold layerAt
  rw [List.getD_eq_getElem?_getD]
  cases h : layers[n]? with
  | none => exact NewLayer_inv _ i
  | some o =>
    cases o with
    | none => exact NewLayer_inv _ i
    | some l =>
      obtain ⟨h1, -, h3⟩ := hinv n l h
      exact ⟨h1, h3 hmn⟩

theorem layerStep_inv (SliceFace : SliceFaceFn) (initialThickness layerThickness : Micrometer)
    (i : Nat) (points : FacePoints) (layers layers' : List (Option layer)) (m : Int)
    (hinv : LayersInv layers i m)
    (hstep : layerStep SliceFace initialThickness layerThickness i points layers m
      = some layers') :
    LayersInv layers' i (m + 1) := by
  have hweak : LayersInv layers i (m + 1) := by
    intro pos l h
    obtain ⟨h1, h2, h3⟩ := hinv pos l h
    exact ⟨h1, h2, fun hle => h3 (by omega)⟩
  unfold layerStep at hstep
  simp only at hstep
  split_ifs at hstep with hz hneg hlen
  · cases hstep; exact hweak
  · cases hstep; exact hweak
  · cases hstep
    intro pos l h
    rw [List.getElem?_set] at h
    by_cases hpos : m.toNat = pos
    · simp only [hpos, if_true] at h
      have hlt : pos < layers.length := by omega
      simp only [hlt, if_true, Option.some.injEq] at h
      subst h
      have hl := layerAt_inv layers i m pos hinv (by omega)
      have := fileSegment_inv SliceFace i (m * layerThickness + initialThickness) points
        (layerAt layers pos) hl.1 hl.2
      exact ⟨this.1, this.2, fun hle => by omega⟩
    · simp only [hpos, if_false] at h
      exact hweak pos l h

theorem layerLoop_inv (SliceFace : SliceFaceFn) (initialThickness layerThickness : Micrometer)
    (i : Nat) (points : FacePoints) (first : Int) (c : Nat) :
    ∀ (layers layers' : List (Option layer)), LayersInv layers i first →
      ((List.range c).map (fun k : Nat => first + (k : Int))).foldlM
        (layerStep SliceFace initialThickness layerThickness i points) layers = some layers' →
      LayersInv layers' i (first + (c : Int)) := by
  induction c with
  | zero =>
    intro layers layers' hinv h
    simp only [List.range_zero, List.map_nil, List.foldlM_nil] at h
    cases h
    simpa using hinv
  | succ c ih =>
    intro layers layers' hinv h
    rw [List.range_succ, List.map_append, List.foldlM_append] at h
    cases hmid : ((List.range c).map (fun k : Nat => first + (k : Int))).foldlM
        (layerStep SliceFace initialThickness layerThickness i points) layers with
    | none => rw [hmid] at h; simp at h
    | some mid =>
      rw [hmid] at h
      have hlast : layerStep SliceFace initialThickness layerThickness i points mid
          (first + (c : Int)) = some layers' := by
        simpa using h
      have hl := layerStep_inv SliceFace initialThickness layerThickness i points mid layers'
        (first + (c : Int)) (ih layers mid hinv hmid) hlast
      have hcast : first + ((c + 1 : Nat) : Int) = first + (c : Int) + 1 := by
        push_cast; ring
      rw [hcast]
      exact hl

/-- Invariant of the face loop before face `n`. -/
theorem faceStep_inv (SliceFace : SliceFaceFn) (initialThickness layerThickness : Micrometer)
    (n : Nat) (points : FacePoints) (layers layers' : List (Option layer))
    (hinv : ∀ (pos : Nat) (l : layer), layers[pos]? = some (some l) →
      l.indexAgrees ∧ l.keysBelow n)
    (hstep : faceStep SliceFace initialThickness layerThickness layers (n, points)
      = some layers') :
    ∀ (pos : Nat) (l : layer), layers'[pos]? = some (some l) →
      l.indexAgrees ∧ l.keysBelow (n + 1) := by
  have hstart : LayersInv layers n
      ((faceMinZ points - initialThickness).tdiv layerThickness) := by
    intro pos l h
    obtain ⟨h1, h2⟩ := hinv pos l h
    exact ⟨h1, keysBelow_mono l n (n + 1) h2 (Nat.le_succ n), fun _ => h2⟩
  simp only [faceStep, layerNrs] at hstep
  have := layerLoop_inv SliceFace initialThickness layerThickness n points _ _ layers layers'
    hstart hstep
  intro pos l h
  obtain ⟨h1, h2, -⟩ := this pos l h
  exact ⟨h1, h2⟩

theorem bucketFaces_inv (SliceFace : SliceFaceFn) (initialThickness layerThickness : Micrometer)
    (faces : List FacePoints) :
    ∀ (n : Nat) (layers layers' : List (Option layer)),
      (∀ (pos : Nat) (l : layer), layers[pos]? = some (some l) →
        l.indexAgrees ∧ l.keysBelow n) →
      (faces.enumFrom n).foldlM (faceStep SliceFace initialThickness layerThickness) layers
        = some layers' →
      ∀ (pos : Nat) (l : layer), layers'[pos]? = some (some l) →
        l.indexAgrees ∧ l.keysBelow (n + faces.length) := by
  induction faces with
  | nil =>
    intro n layers layers' hinv h
    simp only [List.enumFrom_nil, List.foldlM_nil] at h
    cases h
    simpa using hinv
  | cons f fs ih =>
    intro n layers layers' hinv h
    simp only [List.enumFrom_cons, List.foldlM_cons] at h
    cases hmid : faceStep SliceFace initialThickness layerThickness layers (n, f) with
    | none => rw [hmid] at h; simp at h
    | some mid =>
      rw [hmid] at h
      have h : (fs.enumFrom (n + 1)).foldlM
          (faceStep SliceFace initialThickness layerThickness) mid = some layers' := by
        simpa using h
      have hm := faceStep_inv SliceFace initialThickness layerThickness n f layers mid hinv hmid
      have := ih (n + 1) mid layers' hm h
      intro pos l hl
      obtain ⟨h1, h2⟩ := this pos l hl
      refine ⟨h1, ?_⟩
      simp only [List.length_cons]
      have e : n + (fs.length + 1) = n + 1 + fs.length := by omega
      rw [e]; exact h2

end slicer

namespace slicer

theorem NewSlicer_layers_inv (SliceFace : SliceFaceFn) (om : OptimizedModel)
    (initialThickness layerThickness : Micrometer) (s : slicer)
    (h : NewSlicer SliceFace om initialThickness layerThickness = some s)
    (l : layer) (hl : some l ∈ s.layers) :
    l.indexAgrees ∧ l.keysBelow om.Faces.length := by
  unfold NewSlicer at h
  simp only at h
  split_ifs at h with h0 hneg
  simp only [Option.map_eq_some'] at h
  obtain ⟨layers, hb, rfl⟩ := h
  obtain ⟨pos, hpos⟩ := List.mem_iff_getElem?.mp hl
  have hinit : ∀ (c p : Nat) (l' : layer),
      (List.replicate c (none : Option layer))[p]? = some (some l') →
        l'.indexAgrees ∧ l'.keysBelow 0 := by
    intro c p l' hp
    rw [List.getElem?_replicate] at hp
    split_ifs at hp
    simp at hp
  have := bucketFaces_inv SliceFace initialThickness layerThickness om.Faces 0
    (List.replicate ((om.Size.Z - initialThickness).tdiv layerThickness + 1).toNat none) layers
    (hinit _) (by simpa [bucketFaces, List.enum] using hb) pos l hpos
  simpa using this

/-- C10: after the bucketing loop of `NewSlicer`, in every layer the face-to-segment index
and the segment list agree: an entry `e` of face `i` is a valid position of `segments`
and the segment there has face index `i`, and for every position `k` of `segments` the
entry of the face of the segment at `k` is `k`. -/
theorem NewSlicer_index_agrees (SliceFace : SliceFaceFn) (om : OptimizedModel)
    (initialThickness layerThickness : Micrometer) (s : slicer)
    (h : NewSlicer SliceFace om initialThickness layerThickness = some s)
    (l : layer) (hl : some l ∈ s.layers) :
    (∀ i e, l.segmentIndexOf i = some e →
      e < l.segments.length ∧ (l.segments[e]?).map (fun seg => seg.faceIndex) = some i)
    ∧ (∀ k seg, l.segments[k]? = some seg → l.segmentIndexOf seg.faceIndex = some k) := by
  obtain ⟨⟨h1, h2⟩, -⟩ :=
    NewSlicer_layers_inv SliceFace om initialThickness layerThickness s h l hl
  refine ⟨fun i e hie => ⟨?_, h1 i e hie⟩, h2⟩
  have := h1 i e hie
  by_contra hge
  rw [List.getElem?_eq_none (by omega)] at this
  simp at this

/-- Witness of C10: in the layer at height 100 of the sample model, the entry of face 1
is position 1, and the segment there has face index 1. -/
theorem NewSlicer_index_agrees_witness :
    1 < demo.slicedLayer0.segments.length
    ∧ (demo.slicedLayer0.segments[1]?).map (fun seg => seg.faceIndex) = some 1 :=
  (NewSlicer_index_agrees demo.SliceFace demo.model 100 100 demo.sliced (by decide)
    demo.slicedLayer0 (by decide)).1 1 1 (by decide)

end slicer

/-! ## Conversions, point filter and inset results -/

namespace clip

theorem microPaths_eq_map (Simplify : SimplifyFn) (p : clipper.Paths) (simplify : Bool) :
    microPaths Simplify p simplify
      = p.map (fun path => Simplify
          (if simplify then Simplify (microPath path) (-1) (-1) else microPath path)
          (-1) (-1)) := by
  unfold microPaths
  simpa using foldl_snoc_eq_map (fun path => Simplify
    (if simplify then Simplify (microPath path) (-1) (-1) else microPath path) (-1) (-1)) p []

/-- The paths of the rings returned by `Inset`: ring `j` holds, path by path and in the
order of the engine result, the converted engine path after two successive passes of
`Simplify(-1, -1)`. -/
theorem Inset_ring_paths (Execute : OffsetExecuteFn) (Simplify : SimplifyFn)
    (part : layerPart) (offset : Micrometer) (N : Int) :
    Inset Execute Simplify part offset N
      = (List.range (firstEmptyRing Execute part offset N)).map
          (fun j => (ring Execute part offset j).map
            (fun path => Simplify (Simplify (microPath path) (-1) (-1)) (-1) (-1))) := by
  simp only [Inset, insetLoop, insetLoop_range, firstEmptyRing, microPaths_eq_map, if_true]

/-- C14: `InsetLayer` returns one entry per part of the layer, in part order: the result
is the list of `Inset` results of the parts, it has the length of `layer.LayerParts()`,
and its `i`-th entry is `Inset` of the `i`-th part. -/
theorem InsetLayer_eq_map (Execute : OffsetExecuteFn) (Simplify : SimplifyFn)
    (layer : partitionedLayer) (offset : Micrometer) (insetCount : Int) :
    InsetLayer Execute Simplify layer offset insetCount
      = layer.LayerParts.map (fun part => Inset Execute Simplify part offset insetCount)
    ∧ (InsetLayer Execute Simplify layer offset insetCount).length = layer.LayerParts.length
    ∧ ∀ i : Nat, (InsetLayer Execute Simplify layer offset insetCount)[i]?
        = (layer.LayerParts[i]?).map
            (fun part => Inset Execute Simplify part offset insetCount) := by
  have h : InsetLayer Execute Simplify layer offset insetCount
      = layer.LayerParts.map (fun part => Inset Execute Simplify part offset insetCount) := by
    unfold InsetLayer
    simpa using foldl_snoc_eq_map
      (fun part => Inset Execute Simplify part offset insetCount) layer.LayerParts []
  refine ⟨h, ?_, ?_⟩
  · rw [h]; simp
  · intro i; rw [h]; simp

theorem keepFar_sublist (Sub : SubFn) (ShorterThan : ShorterThanFn) (qs : List MicroPoint) :
    ∀ prev : MicroPoint, (keepFar Sub ShorterThan prev qs).Sublist qs := by
  induction qs with
  | nil => intro prev; simp [keepFar]
  | cons q t ih =>
    intro prev
    unfold keepFar
    split_ifs
    · exact (ih prev).cons q
    · exact (ih q).cons₂ q

theorem keepFar_chain (Sub : SubFn) (ShorterThan : ShorterThanFn) (qs : List MicroPoint) :
    ∀ prev : MicroPoint,
      List.Chain (fun a b => ShorterThan (Sub b a) 100 = false) prev
        (keepFar Sub ShorterThan prev qs) := by
  induction qs with
  | nil => intro prev; simp [keepFar]
  | cons q t ih =>
    intro prev
    unfold keepFar
    split_ifs with h
    · exact ih prev
    · exact List.Chain.cons (by simpa using h) (ih q)

theorem filterFold_eq (Sub : SubFn) (ShorterThan : ShorterThanFn) (polygon : data.Path)
    (rest : List MicroPoint) :
    ∀ (k : Nat) (st : FilterState) (last : MicroPoint), 0 < k → polygon.drop k = rest →
      polygon[st.prev]? = some last →
      ((rest.enumFrom k).foldl (filterStep Sub ShorterThan polygon) st).path
        = st.path ++ (keepFar Sub ShorterThan last rest).map clipperPoint := by
  induction rest with
  | nil => intro k st last _ _ _; simp [keepFar]
  | cons q t ih =>
    intro k st last hk hdrop hprev
    have hq : polygon[k]? = some q := by
      have := congrArg List.head? hdrop
      simpa [List.head?_drop] using this
    have ht : polygon.drop (k + 1) = t := by
      have := congrArg List.tail hdrop
      simpa [List.tail_drop] using this
    have hk0 : k ≠ 0 := by omega
    simp only [List.enumFrom_cons, List.foldl_cons]
    unfold keepFar
    by_cases hs : ShorterThan (Sub q last) 100 = true
    · have hstep : filterStep Sub ShorterThan polygon st (k, q) = st := by
        simp [filterStep, hk0, hprev, hs]
      rw [hstep, if_pos hs]
      exact ih (k + 1) st last (by omega) ht hprev
    · have hstep : filterStep Sub ShorterThan polygon st (k, q)
          = { path := st.path ++ [clipperPoint q], prev := k } := by
        simp [filterStep, hk0, hprev, hs]
      rw [hstep, if_neg hs, ih (k + 1) _ q (by omega) ht hq]
      simp

theorem filterPolygon_eq (Sub : SubFn) (ShorterThan : ShorterThanFn) (polygon : data.Path) :
    filterPolygon Sub ShorterThan polygon
      = (referenceFilter Sub ShorterThan polygon).map clipperPoint := by
  cases polygon with
  | nil => rfl
  | cons p ps =>
    unfold filterPolygon
    simp only [List.enum, List.enumFrom_cons, List.foldl_cons]
    have hfirst : filterStep Sub ShorterThan (p :: ps) { path := [], prev := 0 } (0, p)
        = { path := [clipperPoint p], prev := 0 } := by
      simp [filterStep]
    rw [hfirst, filterFold_eq Sub ShorterThan (p :: ps) ps 1 _ p (by omega) (by simp)
      (by simp)]
    simp [referenceFilter]

/-- C15: before the union, `GenerateLayerParts` turns each layer polygon into one engine
path, in polygon order, by the filter of too-near points: the path is the conversion of
the kept points, which form a subsequence of the polygon starting with its first point,
every later kept point is not `ShorterThan 100` away from the kept point before it, and a
point is dropped exactly when it is `ShorterThan 100` away from the most recent kept
point (the recursion of `keepFar`). -/
theorem buildPolyList_eq_filter (Sub : SubFn) (ShorterThan : ShorterThanFn)
    (polygons : data.Paths) :
    buildPolyList Sub ShorterThan polygons
      = polygons.map (fun polygon => (referenceFilter Sub ShorterThan polygon).map clipperPoint)
    ∧ (buildPolyList Sub ShorterThan polygons).length = polygons.length
    ∧ (∀ polygon : data.Path, (referenceFilter Sub ShorterThan polygon).Sublist polygon)
    ∧ (∀ polygon : data.Path, (referenceFilter Sub ShorterThan polygon).head? = polygon.head?)
    ∧ (∀ polygon : data.Path,
        List.Chain' (fun a b => ShorterThan (Sub b a) 100 = false)
          (referenceFilter Sub ShorterThan polygon))
    ∧ (∀ (prev q : MicroPoint) (qs : List MicroPoint),
        keepFar Sub ShorterThan prev (q :: qs)
          = if ShorterThan (Sub q prev) 100 then keepFar Sub ShorterThan prev qs
            else q :: keepFar Sub ShorterThan q qs) := by
  have h : buildPolyList Sub ShorterThan polygons
      = polygons.map (fun polygon =>
          (referenceFilter Sub ShorterThan polygon).map clipperPoint) := by
    unfold buildPolyList
    rw [foldl_snoc_eq_map (fun polygon => filterPolygon Sub ShorterThan polygon) polygons []]
    simp [filterPolygon_eq]
  refine ⟨h, ?_, ?_, ?_, ?_, ?_⟩
  · rw [h]; simp
  · intro polygon
    cases polygon with
    | nil => simp [referenceFilter]
    | cons p ps => exact (keepFar_sublist Sub ShorterThan ps p).cons₂ p
  · intro polygon
    cases polygon <;> simp [referenceFilter]
  · intro polygon
    cases polygon with
    | nil => simp [referenceFilter]
    | cons p ps => exact keepFar_chain Sub ShorterThan ps p
  · intro prev q qs
    rw [keepFar]

/-- C20: the coordinate conversions lose nothing: `microPoint (clipperPoint p) = p`, and
a path (non-empty or not) converted point by point to an engine path and back with
`microPath` is the same path, with the same points in the same order and number; the same
holds through `clipperPaths`. -/
theorem microPath_clipperPoint_roundtrip (p : MicroPoint) (path : data.Path) :
    microPoint (clipperPoint p) = p
    ∧ microPath (path.map clipperPoint) = path
    ∧ (microPath (path.map clipperPoint)).length = path.length
    ∧ (clipperPaths [path]).map microPath = [path] := by
  have hp : ∀ q : MicroPoint, microPoint (clipperPoint q) = q := fun q => rfl
  have hpath : microPath (path.map clipperPoint) = path := by
    rw [microPath_eq_map, List.map_map]
    have : microPoint ∘ clipperPoint = id := funext hp
    rw [this, List.map_id]
  refine ⟨hp p, hpath, by rw [hpath], ?_⟩
  rw [clipperPaths_eq_map]
  simp [hpath]

end clip

/-! ## Contour use and termination of the round loop -/

namespace clip

theorem forestCount_append (counted : Bool) (a b : List clipper.PolyNode) :
    forestCount counted (a ++ b) = forestCount counted a + forestCount counted b := by
  induction a with
  | nil => simp [forestCount]
  | cons p t ih => simp [forestCount, ih, Nat.add_assoc]

theorem forestSize_append (a b : List clipper.PolyNode) :
    forestSize (a ++ b) = forestSize a + forestSize b := by
  induction a with
  | nil => simp [forestSize]
  | cons p t ih => simp [forestSize, ih, Nat.add_assoc]

theorem nodeCount_childs (counted : Bool) (p : clipper.PolyNode) :
    nodeCount counted p = (if counted then 1 else 0) + forestCount (!counted) p.Childs := by
  cases p with
  | mk c cs => simp [nodeCount, clipper.PolyNode.Childs]

theorem nodeSize_childs (p : clipper.PolyNode) : nodeSize p = forestSize p.Childs + 1 := by
  cases p with
  | mk c cs => simp [nodeSize, clipper.PolyNode.Childs]

theorem forestCount_level (counted : Bool) (forest : List clipper.PolyNode) :
    forestCount counted forest
      = (if counted then forest.length else 0)
        + forestCount (!counted) (forest.flatMap (fun p => p.Childs)) := by
  induction forest with
  | nil => simp [forestCount]
  | cons p t ih =>
    simp only [forestCount, List.flatMap_cons, forestCount_append, nodeCount_childs, ih,
      List.length_cons]
    cases counted
    · simp
    · simp; omega

theorem forestSize_level (forest : List clipper.PolyNode) :
    forestSize forest = forest.length + forestSize (forest.flatMap (fun p => p.Childs)) := by
  induction forest with
  | nil => simp [forestSize]
  | cons p t ih =>
    simp only [forestSize, List.flatMap_cons, forestSize_append, nodeSize_childs, ih,
      List.length_cons]
    omega

theorem grandchildren_eq (forest : List clipper.PolyNode) :
    grandchildren forest
      = (forest.flatMap (fun p => p.Childs)).flatMap (fun child => child.Childs) := by
  simp [grandchildren, List.flatMap_assoc]

theorem forestCount_add (n : Nat) :
    ∀ forest : List clipper.PolyNode, forestDepth forest ≤ n →
      forestCount true forest + forestCount false forest = forestSize forest := by
  induction n with
  | zero =>
    intro forest h
    cases forest with
    | nil => simp [forestCount, forestSize]
    | cons p t =>
      have := forestDepth_pos_of_ne_nil (p :: t) (by simp)
      omega
  | succ n ih =>
    intro forest h
    rw [forestCount_level true, forestCount_level false, forestSize_level]
    have hd : forestDepth (forest.flatMap (fun p => p.Childs)) ≤ n := by
      rcases forestDepth_flatMap_childs forest with h1 | h1
      · omega
      · rw [h1]; simp [forestDepth]
    have := ih _ hd
    simp only [if_true, Bool.not_true, Bool.not_false, Bool.false_eq_true, if_false] at *
    omega

theorem totalHoles_append (a b : List layerPart) :
    totalHoles (a ++ b) = totalHoles a + totalHoles b := by
  simp [totalHoles]

theorem totalHoles_map_partOfNode (forest : List clipper.PolyNode) :
    totalHoles (forest.map partOfNode) = (forest.flatMap (fun p => p.Childs)).length := by
  induction forest with
  | nil => simp [totalHoles]
  | cons p t ih =>
    simp only [totalHoles, List.map_cons, List.sum_cons, List.flatMap_cons,
      List.length_append] at ih ⊢
    rw [ih]
    simp [partOfNode]

theorem referenceWalk_counts (R : Nat) :
    ∀ forest : List clipper.PolyNode, forestDepth forest ≤ 2 * R →
      (referenceWalk R forest).length = forestCount true forest
      ∧ totalHoles (referenceWalk R forest) = forestCount false forest := by
  induction R with
  | zero =>
    intro forest h
    cases forest with
    | nil => simp [referenceWalk, totalHoles, forestCount]
    | cons p t =>
      have := forestDepth_pos_of_ne_nil (p :: t) (by simp)
      omega
  | succ R ih =>
    intro forest h
    have hd : forestDepth (grandchildren forest) ≤ 2 * R := by
      rcases forestDepth_grandchildren forest with h1 | h1
      · omega
      · rw [h1]; simp [forestDepth]
    obtain ⟨i1, i2⟩ := ih (grandchildren forest) hd
    rw [referenceWalk_succ]
    have e1 := forestCount_level true forest
    have e2 := forestCount_level false forest
    have e3 := forestCount_level false (forest.flatMap (fun p => p.Childs))
    have e4 := forestCount_level true (forest.flatMap (fun p => p.Childs))
    rw [← grandchildren_eq] at e3 e4
    simp only [if_true, Bool.not_true, Bool.not_false, Bool.false_eq_true, if_false,
      Nat.zero_add] at e1 e2 e3 e4
    constructor
    · rw [List.length_append, List.length_map, i1]
      omega
    · rw [totalHoles_append, totalHoles_map_partOfNode, i2]
      omega

theorem roundNodes_depth (r : Nat) :
    ∀ forest : List clipper.PolyNode, roundNodes r forest ≠ [] →
      2 * r < forestDepth forest := by
  induction r with
  | zero =>
    intro forest h
    have := forestDepth_pos_of_ne_nil forest (by simpa [roundNodes] using h)
    omega
  | succ r ih =>
    intro forest h
    simp only [roundNodes] at h
    have hg : grandchildren forest ≠ [] := by
      intro hnil
      rw [hnil, roundNodes_nil] at h
      exact h rfl
    have := ih (grandchildren forest) h
    rcases forestDepth_grandchildren forest with h1 | h1
    · omega
    · exact absurd h1 hg

/-- C17: `GenerateLayerParts` uses every contour of the forest exactly once, as an outline
or as a hole: when the union succeeds (and the fuel covers the rounds), the number of
returned parts is the number of nodes at even depth, the total number of holes is the
number of nodes at odd depth, and parts plus holes is the number of nodes of the forest. -/
theorem GenerateLayerParts_counts (Execute2 : Execute2Fn) (Sub : SubFn)
    (ShorterThan : ShorterThanFn) (polygons : data.Paths) (fuel : Nat)
    (tree : clipper.PolyNode)
    (hexec : Execute2 .CtUnion .PftEvenOdd .PftEvenOdd (buildPolyList Sub ShorterThan polygons)
      = (tree, true))
    (hfuel : 1 ≤ fuel) (hdepth : forestDepth tree.Childs ≤ 2 * fuel) :
    ∃ layer : partitionedLayer,
      GenerateLayerParts Execute2 Sub ShorterThan fuel polygons = some (some layer, true)
      ∧ layer.parts.length = evenDepthNodes tree.Childs
      ∧ totalHoles layer.parts = oddDepthNodes tree.Childs
      ∧ layer.parts.length + totalHoles layer.parts = forestSize tree.Childs := by
  obtain ⟨h1, h2⟩ := referenceWalk_counts fuel tree.Childs hdepth
  refine ⟨{ parts := referenceWalk fuel tree.Childs },
    GenerateLayerParts_of_ok Execute2 Sub ShorterThan polygons fuel fuel tree hexec hfuel
      hdepth hfuel hdepth, h1, h2, ?_⟩
  simp only [h1, h2]
  exact forestCount_add _ tree.Childs (le_refl _)

/-- Witness of C17: the two concentric squares give one part and one hole for two nodes. -/
theorem GenerateLayerParts_counts_witness :
    ∃ layer : partitionedLayer,
      GenerateLayerParts demo.unionSquares demo.Sub demo.ShorterThan 1 demo.squares
        = some (some layer, true)
      ∧ layer.parts.length = evenDepthNodes demo.squaresTree.Childs
      ∧ totalHoles layer.parts = oddDepthNodes demo.squaresTree.Childs
      ∧ layer.parts.length + totalHoles layer.parts = forestSize demo.squaresTree.Childs :=
  GenerateLayerParts_counts demo.unionSquares demo.Sub demo.ShorterThan demo.squares 1
    demo.squaresTree rfl (by decide) (by decide)

/-- C19: the round loop terminates for every contour forest.  When the union succeeds,
any fuel of at least one round that covers half the depth of the forest makes
`GenerateLayerParts` return, in particular a fuel equal to the depth (one round for the
empty forest); for the empty forest the result is zero parts with `ok = true`; and a
round that holds a node is at most half the depth away from round 0, each round holding
only nodes two levels deeper than the round before. -/
theorem GenerateLayerParts_terminates (Execute2 : Execute2Fn) (Sub : SubFn)
    (ShorterThan : ShorterThanFn) (polygons : data.Paths) (tree : clipper.PolyNode)
    (hexec : Execute2 .CtUnion .PftEvenOdd .PftEvenOdd (buildPolyList Sub ShorterThan polygons)
      = (tree, true)) :
    (∀ fuel : Nat, 1 ≤ fuel → forestDepth tree.Childs ≤ 2 * fuel →
      ∃ layer, GenerateLayerParts Execute2 Sub ShorterThan fuel polygons
        = some (some layer, true))
    ∧ (∃ layer, GenerateLayerParts Execute2 Sub ShorterThan (max 1 (forestDepth tree.Childs))
        polygons = some (some layer, true))
    ∧ (tree.Childs = [] →
        GenerateLayerParts Execute2 Sub ShorterThan 1 polygons
          = some (some { parts := [] }, true))
    ∧ (∀ r : Nat, roundNodes r tree.Childs ≠ [] → 2 * r < forestDepth tree.Childs)
    ∧ (∀ r : Nat, forestDepth (roundNodes (r + 1) tree.Childs) + 2
          ≤ forestDepth (roundNodes r tree.Childs)
        ∨ roundNodes (r + 1) tree.Childs = []) := by
  have hall : ∀ fuel : Nat, 1 ≤ fuel → forestDepth tree.Childs ≤ 2 * fuel →
      ∃ layer, GenerateLayerParts Execute2 Sub ShorterThan fuel polygons
        = some (some layer, true) :=
    fun fuel h1 h2 => ⟨_, GenerateLayerParts_of_ok Execute2 Sub ShorterThan polygons fuel fuel
      tree hexec h1 h2 h1 h2⟩
  refine ⟨hall, hall _ (by omega) (by omega), ?_, fun r => roundNodes_depth r tree.Childs, ?_⟩
  · intro hempty
    rw [GenerateLayerParts_of_ok Execute2 Sub ShorterThan polygons 1 1 tree hexec (le_refl 1)
      (by rw [hempty]; simp [forestDepth]) (le_refl 1) (by rw [hempty]; simp [forestDepth]),
      hempty, referenceWalk_nil]
  · intro r
    have hstep : ∀ (n : Nat) (forest : List clipper.PolyNode),
        roundNodes (n + 1) forest = grandchildren (roundNodes n forest) := by
      intro n
      induction n with
      | zero => intro forest; rfl
      | succ n ih => intro forest; exact ih (grandchildren forest)
    rw [hstep]
    exact forestDepth_grandchildren _

/-- Witness of C19: the empty forest gives zero parts with `ok = true` after one round. -/
theorem GenerateLayerParts_terminates_witness :
    GenerateLayerParts demo.unionEmpty demo.Sub demo.ShorterThan 1 demo.squares
      = some (some { parts := [] }, true) :=
  (GenerateLayerParts_terminates demo.unionEmpty demo.Sub demo.ShorterThan demo.squares
    (.mk [] []) rfl).2.2.1 rfl

end clip

/-! ## Layerwise invariants of the bucketing loop -/

namespace slicer

theorem layerStep_layerwise (P : Nat → Nat → layer → Prop) (SliceFace : SliceFaceFn)
    (initialThickness layerThickness : Micrometer) (i : Nat) (points : FacePoints)
    (hnew : ∀ pos n : Nat, P pos n (NewLayer pos))
    (hfile : ∀ (layerNr : Int) (l : layer), 0 ≤ layerNr → P layerNr.toNat i l →
      P layerNr.toNat (i + 1)
        (fileSegment SliceFace i (layerNr * layerThickness + initialThickness) points l))
    (layers layers' : List (Option layer)) (m : Int)
    (hinv : ∀ (pos : Nat) (l : layer), layers[pos]? = some (some l) →
      P pos (i + 1) l ∧ (m ≤ (pos : Int) → P pos i l))
    (hstep : layerStep SliceFace initialThickness layerThickness i points layers m
      = some layers') :
    ∀ (pos : Nat) (l : layer), layers'[pos]? = some (some l) →
      P pos (i + 1) l ∧ (m + 1 ≤ (pos : Int) → P pos i l) := by
  have hweak : ∀ (pos : Nat) (l : layer), layers[pos]? = some (some l) →
      P pos (i + 1) l ∧ (m + 1 ≤ (pos : Int) → P pos i l) := by
    intro pos l h
    obtain ⟨h1, h2⟩ := hinv pos l h
    exact ⟨h1, fun hle => h2 (by omega)⟩
  unfold layerStep at hstep
  simp only at hstep
  split_ifs at hstep with hz hneg hlen
  · cases hstep; exact hweak
  · cases hstep; exact hweak
  · cases hstep
    intro pos l h
    rw [List.getElem?_set] at h
    by_cases hpos : m.toNat = pos
    · simp only [hpos, if_true] at h
      have hlt : pos < layers.length := by omega
      simp only [hlt, if_true, Option.some.injEq] at h
      subst h
      have hat : P pos i (layerAt layers pos) := by
        unfold layerAt
        rw [List.getD_eq_getElem?_getD]
        cases hx : layers[pos]? with
        | none => exact hnew pos i
        | some o =>
          cases o with
          | none => exact hnew pos i
          | some l0 => exact (hinv pos l0 hx).2 (by omega)
      have := hfile m (layerAt layers pos) (by omega) (by rw [hpos]; exact hat)
      rw [hpos] at this
      exact ⟨this, fun hle => by omega⟩
    · simp only [hpos, if_false] at h
      exact hweak pos l h

theorem layerLoop_layerwise (P : Nat → Nat → layer → Prop) (SliceFace : SliceFaceFn)
    (initialThickness layerThickness : Micrometer) (i : Nat) (points : FacePoints)
    (hnew : ∀ pos n : Nat, P pos n (NewLayer pos))
    (hfile : ∀ (layerNr : Int) (l : layer), 0 ≤ layerNr → P layerNr.toNat i l →
      P layerNr.toNat (i + 1)
        (fileSegment SliceFace i (layerNr * layerThickness + initialThickness) points l))
    (first : Int) (c : Nat) :
    ∀ (layers layers' : List (Option layer)),
      (∀ (pos : Nat) (l : layer), layers[pos]? = some (some l) →
        P pos (i + 1) l ∧ (first ≤ (pos : Int) → P pos i l)) →
      ((List.range c).map (fun k : Nat => first + (k : Int))).foldlM
        (layerStep SliceFace initialThickness layerThickness i points) layers = some layers' →
      ∀ (pos : Nat) (l : layer), layers'[pos]? = some (some l) →
        P pos (i + 1) l ∧ (first + (c : Int) ≤ (pos : Int) → P pos i l) := by
  induction c with
  | zero =>
    intro layers layers' hinv h
    simp only [List.range_zero, List.map_nil, List.foldlM_nil] at h
    cases h
    simpa using hinv
  | succ c ih =>
    intro layers layers' hinv h
    rw [List.range_succ, List.map_append, List.foldlM_append] at h
    cases hmid : ((List.range c).map (fun k : Nat => first + (k : Int))).foldlM
        (layerStep SliceFace initialThickness layerThickness i points) layers with
    | none => rw [hmid] at h; simp at h
    | some mid =>
      rw [hmid] at h
      have hlast : layerStep SliceFace initialThickness layerThickness i points mid
          (first + (c : Int)) = some layers' := by
        simpa using h
      have hl := layerStep_layerwise P SliceFace initialThickness layerThickness i points
        hnew hfile mid layers' (first + (c : Int)) (ih layers mid hinv hmid) hlast
      have hcast : first + ((c + 1 : Nat) : Int) = first + (c : Int) + 1 := by
        push_cast; ring
      rw [hcast]
      exact hl

theorem faceStep_layerwise (P : Nat → Nat → layer → Prop) (SliceFace : SliceFaceFn)
    (initialThickness layerThickness : Micrometer) (i : Nat) (points : FacePoints)
    (hmono : ∀ (pos n : Nat) (l : layer), P pos n l → P pos (n + 1) l)
    (hnew : ∀ pos n : Nat, P pos n (NewLayer pos))
    (hfile : ∀ (layerNr : Int) (l : layer), 0 ≤ layerNr → P layerNr.toNat i l →
      P layerNr.toNat (i + 1)
        (fileSegment SliceFace i (layerNr * layerThickness + initialThickness) points l))
    (layers layers' : List (Option layer))
    (hinv : ∀ (pos : Nat) (l : layer), layers[pos]? = some (some l) → P pos i l)
    (hstep : faceStep SliceFace initialThickness layerThickness layers (i, points)
      = some layers') :
    ∀ (pos : Nat) (l : layer), layers'[pos]? = some (some l) → P pos (i + 1) l := by
  simp only [faceStep, layerNrs] at hstep
  have := layerLoop_layerwise P SliceFace initialThickness layerThickness i points hnew hfile
    _ _ layers layers' (fun pos l h => ⟨hmono pos i l (hinv pos l h), fun _ => hinv pos l h⟩)
    hstep
  exact fun pos l h => (this pos l h).1

theorem bucketFaces_layerwise (P : Nat → Nat → layer → Prop) (SliceFace : SliceFaceFn)
    (initialThickness layerThickness : Micrometer) (faces : List FacePoints)
    (hmono : ∀ (pos n : Nat) (l : layer), P pos n l → P pos (n + 1) l)
    (hnew : ∀ pos n : Nat, P pos n (NewLayer pos))
    (hfile : ∀ (i : Nat) (points : FacePoints), faces[i]? = some points →
      ∀ (layerNr : Int) (l : layer), 0 ≤ layerNr → P layerNr.toNat i l →
        P layerNr.toNat (i + 1)
          (fileSegment SliceFace i (layerNr * layerThickness + initialThickness) points l))
    (rest : List FacePoints) :
    ∀ (n : Nat) (layers layers' : List (Option layer)), faces.drop n = rest →
      (∀ (pos : Nat) (l : layer), layers[pos]? = some (some l) → P pos n l) →
      (rest.enumFrom n).foldlM (faceStep SliceFace initialThickness layerThickness) layers
        = some layers' →
      ∀ (pos : Nat) (l : layer), layers'[pos]? = some (some l) → P pos (n + rest.length) l := by
  induction rest with
  | nil =>
    intro n layers layers' _ hinv h
    simp only [List.enumFrom_nil, List.foldlM_nil] at h
    cases h
    simpa using hinv
  | cons f fs ih =>
    intro n layers layers' hdrop hinv h
    have hf : faces[n]? = some f := by
      have := congrArg List.head? hdrop
      simpa [List.head?_drop] using this
    have hfs : faces.drop (n + 1) = fs := by
      have := congrArg List.tail hdrop
      simpa [List.tail_drop] using this
    simp only [List.enumFrom_cons, List.foldlM_cons] at h
    cases hmid : faceStep SliceFace initialThickness layerThickness layers (n, f) with
    | none => rw [hmid] at h; simp at h
    | some mid =>
      rw [hmid] at h
      have h : (fs.enumFrom (n + 1)).foldlM
          (faceStep SliceFace initialThickness layerThickness) mid = some layers' := by
        simpa using h
      have hm := faceStep_layerwise P SliceFace initialThickness layerThickness n f hmono hnew
        (hfile n f hf) layers mid hinv hmid
      have := ih (n + 1) mid layers' hfs hm h
      intro pos l hl
      have e : n + (fs.length + 1) = n + 1 + fs.length := by omega
      simp only [List.length_cons]
      rw [e]
      exact this pos l hl

theorem NewSlicer_layerwise (P : Nat → Nat → layer → Prop) (SliceFace : SliceFaceFn)
    (om : OptimizedModel) (initialThickness layerThickness : Micrometer)
    (hmono : ∀ (pos n : Nat) (l : layer), P pos n l → P pos (n + 1) l)
    (hnew : ∀ pos n : Nat, P pos n (NewLayer pos))
    (hfile : ∀ (i : Nat) (points : FacePoints), om.Faces[i]? = some points →
      ∀ (layerNr : Int) (l : layer), 0 ≤ layerNr → P layerNr.toNat i l →
        P layerNr.toNat (i + 1)
          (fileSegment SliceFace i (layerNr * layerThickness + initialThickness) points l))
    (s : slicer) (h : NewSlicer SliceFace om initialThickness layerThickness = some s) :
    ∀ (pos : Nat) (l : layer), s.layers[pos]? = some (some l) → P pos om.Faces.length l := by
  unfold NewSlicer at h
  simp only at h
  split_ifs at h with h0 hneg
  simp only [Option.map_eq_some'] at h
  obtain ⟨layers, hb, rfl⟩ := h
  have hinit : ∀ (c p : Nat) (l' : layer),
      (List.replicate c (none : Option layer))[p]? = some (some l') → P p 0 l' := by
    intro c p l' hp
    rw [List.getElem?_replicate] at hp
    split_ifs at hp
    simp at hp
  have := bucketFaces_layerwise P SliceFace initialThickness layerThickness om.Faces hmono
    hnew hfile om.Faces 0
    (List.replicate ((om.Size.Z - initialThickness).tdiv layerThickness + 1).toNat none) layers
    (by simp) (hinit _) (by simpa [bucketFaces, List.enum] using hb)
  simpa using this

end slicer

/-! ## Order and origin of the stored segments -/

namespace slicer

theorem ordered_mono (l : layer) (n : Nat) (h : l.ordered n) : l.ordered (n + 1) :=
  ⟨h.1, fun seg hseg => ⟨Nat.lt_succ_of_lt (h.2 seg hseg).1, (h.2 seg hseg).2⟩⟩

theorem fileSegment_ordered (SliceFace : SliceFaceFn) (i : Nat) (z : Micrometer)
    (points : FacePoints) (l : layer) (h : l.ordered i) :
    (fileSegment SliceFace i z points l).ordered (i + 1) := by
  unfold fileSegment
  cases sliceCase z points with
  | none => exact ordered_mono l i h
  | some abc =>
    obtain ⟨a, b, c⟩ := abc
    obtain ⟨h1, h2⟩ := h
    refine ⟨?_, ?_⟩
    · simp only [addSegment, List.map_append, List.map_cons, List.map_nil]
      rw [List.pairwise_append]
      refine ⟨h1, by simp, ?_⟩
      intro x hx y hy
      simp only [List.mem_singleton] at hy
      simp only [List.mem_map] at hx
      obtain ⟨seg, hseg, rfl⟩ := hx
      rw [hy]
      exact (h2 seg hseg).1
    · intro seg hseg
      simp only [addSegment, List.mem_append, List.mem_singleton] at hseg
      rcases hseg with hseg | rfl
      · exact ⟨Nat.lt_succ_of_lt (h2 seg hseg).1, (h2 seg hseg).2⟩
      · exact ⟨Nat.lt_succ_self i, rfl⟩

/-- C11: after the bucketing loop of `NewSlicer`, in every layer the segments are stored
in triangle-iteration order with at most one segment per triangle: the face indices along
`segments` increase strictly (so no face occurs twice), each is the index of a face of
the model, and every stored segment has its consumed flag `addedToPolygon` false. -/
theorem NewSlicer_segments_ordered (SliceFace : SliceFaceFn) (om : OptimizedModel)
    (initialThickness layerThickness : Micrometer) (s : slicer)
    (h : NewSlicer SliceFace om initialThickness layerThickness = some s)
    (l : layer) (hl : some l ∈ s.layers) :
    (l.segments.map (fun seg => seg.faceIndex)).Pairwise (fun a b => a < b)
    ∧ (l.segments.map (fun seg => seg.faceIndex)).Nodup
    ∧ ∀ seg ∈ l.segments, seg.faceIndex < om.Faces.length ∧ seg.addedToPolygon = false := by
  obtain ⟨pos, hpos⟩ := List.mem_iff_getElem?.mp hl
  have := NewSlicer_layerwise (fun _ n l => l.ordered n) SliceFace om initialThickness
    layerThickness (fun _ n l hP => ordered_mono l n hP)
    (fun pos n => ⟨by simp [NewLayer], by simp [NewLayer]⟩)
    (fun i points _ layerNr l _ hP => fileSegment_ordered SliceFace i _ points l hP)
    s h pos l hpos
  exact ⟨this.1, this.1.imp (fun hab => Nat.ne_of_lt hab), this.2⟩

/-- Witness of C11: the layer at height 100 of the sample model holds the segments of
face 0 and face 1, in this order, with cleared flags. -/
theorem NewSlicer_segments_ordered_witness :
    (demo.slicedLayer0.segments.map (fun seg => seg.faceIndex)).Pairwise (fun a b => a < b)
    ∧ (demo.slicedLayer0.segments.map (fun seg => seg.faceIndex)).Nodup
    ∧ ∀ seg ∈ demo.slicedLayer0.segments,
        seg.faceIndex < demo.model.Faces.length ∧ seg.addedToPolygon = false :=
  NewSlicer_segments_ordered demo.SliceFace demo.model 100 100 demo.sliced (by decide)
    demo.slicedLayer0 (by decide)

theorem faceMinZ_le (points : FacePoints) :
    faceMinZ points ≤ points.p0.Z ∧ faceMinZ points ≤ points.p1.Z
      ∧ faceMinZ points ≤ points.p2.Z := by
  unfold faceMinZ
  simp only [Micrometer] at *
  split_ifs <;> omega

theorem le_faceMaxZ (points : FacePoints) :
    points.p0.Z ≤ faceMaxZ points ∧ points.p1.Z ≤ faceMaxZ points
      ∧ points.p2.Z ≤ faceMaxZ points := by
  unfold faceMaxZ
  simp only [Micrometer] at *
  split_ifs <;> omega

theorem sliceCase_some_range (z : Micrometer) (points : FacePoints)
    (abc : MicroVec3 × MicroVec3 × MicroVec3) (h : sliceCase z points = some abc) :
    faceMinZ points < z ∧ z ≤ faceMaxZ points := by
  obtain ⟨m0, m1, m2⟩ := faceMinZ_le points
  obtain ⟨x0, x1, x2⟩ := le_faceMaxZ points
  constructor
  · by_contra hmin
    have hcount : belowCount z points = 0 := by
      unfold belowCount
      simp only [Micrometer] at *
      rw [if_neg (by omega), if_neg (by omega), if_neg (by omega)]
    rw [sliceCase_eq_none_of_count z points (Or.inl hcount)] at h
    cases h
  · by_contra hmax
    have hcount : belowCount z points = 3 := by
      unfold belowCount
      simp only [Micrometer] at *
      rw [if_pos (by omega), if_pos (by omega), if_pos (by omega)]
    rw [sliceCase_eq_none_of_count z points (Or.inr hcount)] at h
    cases h

theorem fileSegment_cutAt (SliceFace : SliceFaceFn) (faces : List FacePoints) (i : Nat)
    (z : Micrometer) (points : FacePoints) (l : layer) (hface : faces[i]? = some points)
    (h : l.cutAt SliceFace faces z i) :
    (fileSegment SliceFace i z points l).cutAt SliceFace faces z (i + 1) := by
  have hold : ∀ seg ∈ l.segments, seg.faceIndex < i + 1 ∧
      ∃ (points : FacePoints) (a b c : MicroVec3),
        faces[seg.faceIndex]? = some points
        ∧ sliceCase z points = some (a, b, c)
        ∧ seg = { SliceFace z a b c with
                  faceIndex := seg.faceIndex, addedToPolygon := false } :=
    fun seg hseg => ⟨Nat.lt_succ_of_lt (h seg hseg).1, (h seg hseg).2⟩
  unfold fileSegment
  cases hs : sliceCase z points with
  | none => exact hold
  | some abc =>
    obtain ⟨a, b, c⟩ := abc
    intro seg hseg
    simp only [addSegment, List.mem_append, List.mem_singleton] at hseg
    rcases hseg with hseg | rfl
    · exact hold seg hseg
    · exact ⟨Nat.lt_succ_self i, points, a, b, c, hface, hs, rfl⟩

/-- C18: every segment that `NewSlicer` stores in the layer with index `n` was computed by
`SliceFace` at the height `z = n*layerThickness + initialThickness` on the vertices of
the face whose index it carries, and `z` strictly exceeds the lowest vertex of that face
and does not exceed its highest one (`minZ < z ≤ maxZ`). -/
theorem NewSlicer_segment_origin (SliceFace : SliceFaceFn) (om : OptimizedModel)
    (initialThickness layerThickness : Micrometer) (s : slicer)
    (h : NewSlicer SliceFace om initialThickness layerThickness = some s)
    (n : Nat) (l : layer) (hl : s.layers[n]? = some (some l))
    (seg : segment) (hseg : seg ∈ l.segments) :
    ∃ (points : FacePoints) (a b c : MicroVec3),
      om.Faces[seg.faceIndex]? = some points
      ∧ sliceCase ((n : Int) * layerThickness + initialThickness) points = some (a, b, c)
      ∧ seg = { SliceFace ((n : Int) * layerThickness + initialThickness) a b c with
                faceIndex := seg.faceIndex, addedToPolygon := false }
      ∧ faceMinZ points < (n : Int) * layerThickness + initialThickness
      ∧ (n : Int) * layerThickness + initialThickness ≤ faceMaxZ points := by
  have hfile : ∀ (i : Nat) (points : FacePoints), om.Faces[i]? = some points →
      ∀ (layerNr : Int) (l : layer), 0 ≤ layerNr →
        l.cutAt SliceFace om.Faces ((layerNr.toNat : Int) * layerThickness + initialThickness)
          i →
        (fileSegment SliceFace i (layerNr * layerThickness + initialThickness) points l).cutAt
          SliceFace om.Faces ((layerNr.toNat : Int) * layerThickness + initialThickness)
          (i + 1) := by
    intro i points hface layerNr l hnn hP
    have e : ((layerNr.toNat : Nat) : Int) = layerNr := Int.toNat_of_nonneg hnn
    rw [e] at hP ⊢
    exact fileSegment_cutAt SliceFace om.Faces i _ points l hface hP
  have := NewSlicer_layerwise
    (fun pos k l => l.cutAt SliceFace om.Faces ((pos : Int) * layerThickness + initialThickness)
      k)
    SliceFace om initialThickness layerThickness
    (fun _ k l hP seg hseg => ⟨Nat.lt_succ_of_lt (hP seg hseg).1, (hP seg hseg).2⟩)
    (fun pos k seg hseg => by simp [NewLayer] at hseg)
    hfile s h n l hl seg hseg
  obtain ⟨-, points, a, b, c, hface, hs, heq⟩ := this
  obtain ⟨r1, r2⟩ := sliceCase_some_range _ points _ hs
  exact ⟨points, a, b, c, hface, hs, heq, r1, r2⟩

/-- Witness of C18: the first segment of the layer at height 100 of the sample model. -/
theorem NewSlicer_segment_origin_witness :
    ∃ (points : FacePoints) (a b c : MicroVec3),
      demo.model.Faces[demo.firstSegment.faceIndex]? = some points
      ∧ sliceCase (((0 : Nat) : Int) * 100 + 100) points = some (a, b, c)
      ∧ demo.firstSegment
        = { demo.SliceFace (((0 : Nat) : Int) * 100 + 100) a b c with
            faceIndex := demo.firstSegment.faceIndex, addedToPolygon := false }
      ∧ faceMinZ points < ((0 : Nat) : Int) * 100 + 100
      ∧ ((0 : Nat) : Int) * 100 + 100 ≤ faceMaxZ points :=
  NewSlicer_segment_origin demo.SliceFace demo.model 100 100 demo.sliced (by decide) 0
    demo.slicedLayer0 (by decide) demo.firstSegment (by decide)

end slicer

/-! ## Layer heights and layer indices -/

namespace slicer

theorem tdiv_nonpos_of_neg (a b : Int) (ha : a < 0) (hb : 0 < b) : a.tdiv b ≤ 0 := by
  have := Int.tdiv_nonneg (a := -a) (b := b) (by omega) (by omega)
  rw [Int.neg_tdiv] at this
  omega

theorem layerNr_lt_layerCount (layerThickness initialThickness maxZ sizeZ layerNr : Int)
    (hlt : 0 < layerThickness) (hmax : maxZ ≤ sizeZ) (hsize : initialThickness ≤ sizeZ)
    (hle : layerNr ≤ (maxZ - initialThickness).tdiv layerThickness) :
    layerNr < (sizeZ - initialThickness).tdiv layerThickness + 1 := by
  have hs := Int.tdiv_nonneg (a := sizeZ - initialThickness) (b := layerThickness)
    (by omega) (by omega)
  by_cases hneg : maxZ - initialThickness < 0
  · have := tdiv_nonpos_of_neg _ _ hneg hlt
    omega
  · rw [Int.tdiv_eq_ediv (by omega) (by omega)] at hle ⊢
    have := Int.ediv_le_ediv (a := maxZ - initialThickness) (b := sizeZ - initialThickness)
      hlt (by omega)
    omega

theorem mem_layerNrs_le (initialThickness layerThickness : Micrometer) (points : FacePoints)
    (layerNr : Int) (h : layerNr ∈ layerNrs initialThickness layerThickness points) :
    (faceMinZ points - initialThickness).tdiv layerThickness ≤ layerNr
    ∧ layerNr ≤ (faceMaxZ points - initialThickness).tdiv layerThickness := by
  simp only [layerNrs, List.mem_map, List.mem_range] at h
  obtain ⟨k, hk, rfl⟩ := h
  omega

theorem tested_height_bounds (initialThickness layerThickness : Micrometer)
    (points : FacePoints) (layerNr : Int) (hlt : 0 < layerThickness)
    (hmem : layerNr ∈ layerNrs initialThickness layerThickness points)
    (hz : ¬ (layerNr * layerThickness + initialThickness < faceMinZ points)) :
    faceMinZ points ≤ layerNr * layerThickness + initialThickness
    ∧ (initialThickness ≤ faceMaxZ points →
        layerNr * layerThickness + initialThickness ≤ faceMaxZ points) := by
  refine ⟨not_lt.mp hz, ?_⟩
  intro hinit
  have hle := (mem_layerNrs_le _ _ _ _ hmem).2
  simp only [Micrometer] at *
  rw [Int.tdiv_eq_ediv (by omega) (by omega)] at hle
  have h1 := Int.ediv_mul_le (faceMaxZ points - initialThickness) (b := layerThickness)
    (by omega)
  have h2 := Int.mul_le_mul_of_nonneg_right hle (by omega : (0 : Int) ≤ layerThickness)
  omega

/-- C12, evaluated: with first layer at height 200 and layer thickness 100, the face
`faceLow` (heights 0 to 150) is tested at layer 0, whose height 200 is above the highest
vertex of the face: the loop bound `(150 - 200)/100` truncates to 0, both `continue`
guards pass, and layer 0 of the model is created by this face alone, without segments. -/
theorem tested_above_maxZ :
    (0 : Int) ∈ layerNrs 200 100 demo.faceLow
    ∧ Tested 200 100 demo.faceLow [none, none, none] 0
    ∧ faceMaxZ demo.faceLow = 150
    ∧ faceMaxZ demo.faceLow < (0 : Int) * 100 + 200
    ∧ layerStep demo.SliceFace 200 100 0 demo.faceLow [none, none, none] 0
        = some [some (NewLayer 0), none, none]
    ∧ (NewSlicer demo.SliceFace demo.modelLow 200 100).map (fun s => s.layers[0]?)
        = some (some (some (NewLayer 0))) := by
  decide

end slicer

/-! ## Simplified ring paths and 64-bit layer indices -/

namespace clip

/-- C13: every ring returned by `Inset` holds as many paths as the engine result for that
ring, in the same order, and each returned path is the simplification `Simplify(-1, -1)`
of the engine path converted point for point to micro points.  The code simplifies twice
(under the `simplify` flag and again on appending); with a `Simplify` that is idempotent,
as the specification requires, the second pass changes nothing. -/
theorem Inset_ring_simplified (Execute : OffsetExecuteFn) (Simplify : SimplifyFn)
    (part : layerPart) (offset : Micrometer) (N : Int)
    (hidem : SimplifyIdempotent Simplify) :
    Inset Execute Simplify part offset N
      = (List.range (firstEmptyRing Execute part offset N)).map
          (fun j => (ring Execute part offset j).map
            (fun path => Simplify (path.map microPoint) (-1) (-1)))
    ∧ ∀ (j : Nat) (paths : data.Paths),
        (Inset Execute Simplify part offset N)[j]? = some paths →
        paths.length = (ring Execute part offset j).length
        ∧ ∀ m : Nat, paths[m]?
            = ((ring Execute part offset j)[m]?).map
                (fun path => Simplify (path.map microPoint) (-1) (-1)) := by
  have hmain : Inset Execute Simplify part offset N
      = (List.range (firstEmptyRing Execute part offset N)).map
          (fun j => (ring Execute part offset j).map
            (fun path => Simplify (path.map microPoint) (-1) (-1))) := by
    rw [Inset_ring_paths]
    simp only [hidem _, microPath_eq_map]
  refine ⟨hmain, ?_⟩
  intro j paths hj
  rw [hmain, List.getElem?_map] at hj
  cases hr : (List.range (firstEmptyRing Execute part offset N))[j]? with
  | none => rw [hr] at hj; simp at hj
  | some j' =>
    have hjj : j' = j := by
      have hlt : j < (List.range (firstEmptyRing Execute part offset N)).length := by
        by_contra hge
        rw [List.getElem?_eq_none (by omega)] at hr
        cases hr
      rw [List.getElem?_range (by simpa using hlt)] at hr
      exact (Option.some.inj hr).symm
    rw [hr, hjj] at hj
    simp only [Option.map_some', Option.some.injEq] at hj
    subst hj
    exact ⟨by simp, fun m => by simp⟩

/-- Witness of C13: the simplification that removes repeated points is idempotent. -/
theorem Inset_ring_simplified_witness :
    Inset demo.offsetSquare demo.SimplifyRepeats demo.squarePart 400 10
      = (List.range (firstEmptyRing demo.offsetSquare demo.squarePart 400 10)).map
          (fun j => (ring demo.offsetSquare demo.squarePart 400 j).map
            (fun path => demo.SimplifyRepeats (path.map microPoint) (-1) (-1))) :=
  (Inset_ring_simplified demo.offsetSquare demo.SimplifyRepeats demo.squarePart 400 10
    (fun p => List.destutter_idem p _)).1

end clip

namespace slicer

theorem tdiv_bounds (a b : Int) (hb : 0 < b) :
    (0 ≤ a → 0 ≤ a.tdiv b ∧ a.tdiv b ≤ a) ∧ (a ≤ 0 → a ≤ a.tdiv b ∧ a.tdiv b ≤ 0) := by
  constructor
  · intro h
    rw [Int.tdiv_eq_ediv h (by omega)]
    exact ⟨Int.ediv_nonneg h (by omega), Int.ediv_le_self b h⟩
  · intro h
    have e : a.tdiv b = -((-a).tdiv b) := by rw [Int.neg_tdiv]; omega
    rw [e, Int.tdiv_eq_ediv (by omega) (by omega)]
    have h1 := Int.ediv_nonneg (a := -a) (b := b) (by omega) (by omega)
    have h2 := Int.ediv_le_self (a := -a) b (by omega)
    omega

theorem layerIndices64_bounds (initialThickness layerThickness : Micrometer)
    (points : FacePoints) (fuel : Nat) :
    ∀ (layerNr : Int),
      ∀ idx ∈ layerIndices64 initialThickness layerThickness points fuel layerNr,
        0 ≤ idx ∧ idx ≤ lastLayerNr64 initialThickness layerThickness points := by
  induction fuel with
  | zero => intro layerNr idx h; simp [layerIndices64] at h
  | succ fuel ih =>
    intro layerNr idx h
    unfold layerIndices64 at h
    split_ifs at h with hle hz hneg
    · simp only [List.nil_append] at h
      exact ih _ idx h
    · simp only [List.nil_append] at h
      exact ih _ idx h
    · simp only [List.singleton_append, List.mem_cons] at h
      rcases h with rfl | h
      · exact ⟨by omega, hle⟩
      · exact ih _ idx h
    · simp at h

set_option maxRecDepth 100000 in
/-- C16 fails as stated in 64-bit arithmetic.  The model of height 1000 with first layer
and layer thickness 100 and a face at height `-2^63` meets the three conditions of the
claim; the layer count is 10, but `minZ - initialThickness` wraps, and the first pass of
the layer loop indexes `s.layers` with 92233720368547757. -/
theorem layer_index_out_of_range :
    (0 : Int) < 100
    ∧ (100 : Int) ≤ demo.modelLowest.Size.Z
    ∧ (∀ f ∈ demo.modelLowest.Faces,
        f.p0.Z ≤ demo.modelLowest.Size.Z ∧ f.p1.Z ≤ demo.modelLowest.Size.Z
          ∧ f.p2.Z ≤ demo.modelLowest.Size.Z)
    ∧ layerCount64 demo.modelLowest 100 100 = 10
    ∧ firstLayerNr64 100 100 demo.faceLowest = 92233720368547757
    ∧ layerIndices64 100 100 demo.faceLowest 1 (firstLayerNr64 100 100 demo.faceLowest)
        = [92233720368547757]
    ∧ ¬ ((92233720368547757 : Int) < layerCount64 demo.modelLowest 100 100) := by
  decide

/-- C16, amended: for a positive layer thickness, a model height `sizeZ` of at least the
initial thickness and faces whose vertices are not above `sizeZ`, and when neither
`sizeZ - initialThickness` (below `2^63 - 1`) nor any vertex height minus
`initialThickness` (at least `-2^63`) leaves the 64-bit range, the layer count
`(sizeZ - initialThickness)/layerThickness + 1` is positive and every layer index with
which the layer loop indexes `s.layers` satisfies `0 ≤ layerNr < layerCount`. -/
theorem layer_indices_in_bounds (om : OptimizedModel)
    (initialThickness layerThickness : Micrometer)
    (hlt : 0 < layerThickness) (hsize : initialThickness ≤ om.Size.Z)
    (hfaces : ∀ f ∈ om.Faces,
      f.p0.Z ≤ om.Size.Z ∧ f.p1.Z ≤ om.Size.Z ∧ f.p2.Z ≤ om.Size.Z)
    (hhigh : om.Size.Z - initialThickness < 2 ^ 63 - 1)
    (hlow : ∀ f ∈ om.Faces,
      -2 ^ 63 ≤ f.p0.Z - initialThickness ∧ -2 ^ 63 ≤ f.p1.Z - initialThickness
        ∧ -2 ^ 63 ≤ f.p2.Z - initialThickness) :
    0 < layerCount64 om initialThickness layerThickness
    ∧ layerCount64 om initialThickness layerThickness
        = (om.Size.Z - initialThickness).tdiv layerThickness + 1
    ∧ ∀ f ∈ om.Faces, ∀ (fuel : Nat),
        ∀ idx ∈ layerIndices64 initialThickness layerThickness f fuel
            (firstLayerNr64 initialThickness layerThickness f),
          0 ≤ idx ∧ idx < layerCount64 om initialThickness layerThickness := by
  simp only [Micrometer] at *
  have hA := (tdiv_bounds (om.Size.Z - initialThickness) layerThickness hlt).1 (by omega)
  have hcount : layerCount64 om initialThickness layerThickness
      = (om.Size.Z - initialThickness).tdiv layerThickness + 1 := by
    unfold layerCount64
    rw [clip.wrap64_of_range (om.Size.Z - initialThickness) (by omega) (by omega),
      clip.wrap64_of_range ((om.Size.Z - initialThickness).tdiv layerThickness) (by omega)
        (by omega),
      clip.wrap64_of_range ((om.Size.Z - initialThickness).tdiv layerThickness + 1) (by omega)
        (by omega)]
  refine ⟨by rw [hcount]; omega, hcount, ?_⟩
  intro f hf fuel idx hidx
  obtain ⟨h0, h1, h2⟩ := hfaces f hf
  obtain ⟨l0, l1, l2⟩ := hlow f hf
  obtain ⟨x0, x1, x2⟩ := le_faceMaxZ f
  have hmaxle : faceMaxZ f ≤ om.Size.Z := by
    unfold faceMaxZ
    simp only [Micrometer] at *
    split_ifs <;> omega
  simp only [Micrometer] at *
  obtain ⟨hi0, hile⟩ := layerIndices64_bounds initialThickness layerThickness f fuel _ idx hidx
  have hM := tdiv_bounds (faceMaxZ f - initialThickness) layerThickness hlt
  have hlast : lastLayerNr64 initialThickness layerThickness f
      = (faceMaxZ f - initialThickness).tdiv layerThickness := by
    unfold lastLayerNr64
    rw [clip.wrap64_of_range (faceMaxZ f - initialThickness) (by omega) (by omega)]
    rcases le_total 0 (faceMaxZ f - initialThickness) with hs | hs
    · have := hM.1 hs
      exact clip.wrap64_of_range _ (by omega) (by omega)
    · have := hM.2 hs
      exact clip.wrap64_of_range _ (by omega) (by omega)
  rw [hlast] at hile
  refine ⟨hi0, ?_⟩
  rw [hcount]
  exact layerNr_lt_layerCount layerThickness initialThickness (faceMaxZ f) om.Size.Z idx hlt
    hmaxle hsize hile

set_option maxRecDepth 100000 in
/-- Witness of the amended C16: the sample model of height 200 with first layer at 100 and
layer thickness 100. -/
theorem layer_indices_in_bounds_witness :
    0 < layerCount64 demo.model 100 100
    ∧ layerCount64 demo.model 100 100 = (demo.model.Size.Z - 100).tdiv 100 + 1
    ∧ ∀ f ∈ demo.model.Faces, ∀ (fuel : Nat),
        ∀ idx ∈ layerIndices64 100 100 f fuel (firstLayerNr64 100 100 f),
          0 ≤ idx ∧ idx < layerCount64 demo.model 100 100 :=
  layer_indices_in_bounds demo.model 100 100 (by decide) (by decide) (by decide) (by decide)
    (by decide)

end slicer

end GoSlice
